import Mathlib

/-!
# Arts People Line Item Reconciliation Report: a shallow embedding of `report.go`

The Go package `artspeople` parses the CSV export of a report into a
`LineItemReconReport`, a map from order identifier to `Order`.  This file embeds
`report.go` (the constructor `NewLineItemReconReport`, `readInput`,
`parseRawLines`, `GetItems`, `GetCustomers`) and proves properties of it.

Modelling conventions.

* A Go `map[K]V` is an association list `GoMap K V` whose entries are stored in
  insertion order.  Go leaves the iteration order of `range` over a map
  unspecified; `rangeMap` therefore takes a `Schedule`, a list of picks that
  selects the visiting order, and theorems quantify over every schedule.
* A Go `error` is an `Option String`: `none` is `nil`, `some msg` is an error
  whose `Error()` text is `msg`.
* A Go call either returns or panics: `GoResult`.
* `encoding/csv`, `NewLineItem` (whose source file is not part of `report.go`)
  and the policy of `Order.GetCustomer` (which the spec leaves open) are
  parameters of the functions that call them.
-/

namespace ArtsPeople

/-! ## Go runtime model -/

/-- The outcome of a Go call: it returns a value, or the goroutine panics. -/
inductive GoResult (α : Type) where
  | ret (a : α)
  | panic (msg : String)
  deriving DecidableEq

/-- A Go map, as the list of its entries in insertion order. -/
abbrev GoMap (κ ν : Type) := List (κ × ν)

namespace GoMap

variable {κ ν : Type} [DecidableEq κ]

/-- The keys of the map. -/
def keys (m : GoMap κ ν) : List κ := m.map Prod.fst

/-- Map lookup `v, ok := m[k]`: `none` when the key is absent. -/
def get? : GoMap κ ν → κ → Option ν
  | [], _ => none
  | (k', v) :: m, k => if k' = k then some v else get? m k

/-- Map assignment `m[k] = v`: overwrites the entry of `k`, or adds one. -/
def set : GoMap κ ν → κ → ν → GoMap κ ν
  | [], k, v => [(k, v)]
  | (k', v') :: m, k, v => if k' = k then (k', v) :: m else (k', v') :: set m k v

end GoMap

/-- A schedule fixes one iteration order of a Go `range` over a map: each pick
selects (modulo the number of entries left) the entry visited next. -/
abbrev Schedule := List Nat

/-- The entries of a list in the order selected by the schedule.  When the
schedule runs out, the remaining entries are visited in stored order. -/
def pickOrder {α : Type} : Schedule → List α → List α
  | [], l => l
  | c :: cs, l =>
    match l.drop (c % l.length) with
    | [] => l
    | y :: rest => y :: pickOrder cs (l.take (c % l.length) ++ rest)

/-- The sequence of entries visited by `for k, v := range m` under a schedule. -/
def rangeMap {κ ν : Type} (s : Schedule) (m : GoMap κ ν) : List (κ × ν) :=
  pickOrder s m

/-- The text `fmt` prints for a `[]string` under the verb `%s`: the elements
separated by blanks, between square brackets. -/
def fmtStrings (rl : List String) : String :=
  "[" ++ " ".intercalate rl ++ "]"

/-! ## Data model -/

/-- Modelled from the spec: the declaration of `LineItem` is not in `report.go`.
The spec names its order identifier (an integer), its customer name and its item
name; `report.go` reads only `OrderID`. -/
structure LineItem where
  OrderID : Int
  Customer : String
  Item : String
  deriving DecidableEq

/-- Modelled from the spec: the declaration of `Order` is not in `report.go`.
An Order is the collection of the LineItems added to it. -/
structure Order where
  lineItems : List LineItem
  deriving DecidableEq

/-- Modelled from the spec: `NewOrder` is not in `report.go`.  It "produces an
empty Order ready to receive LineItems". -/
def NewOrder : Order := ⟨[]⟩

/-- Modelled from the spec: `Order.AddLineItem` is not in `report.go`.  It
"appends the item to the internal collection", without any validation. -/
def Order.AddLineItem (o : Order) (li : LineItem) : Order :=
  ⟨o.lineItems ++ [li]⟩

/-- Modelled from the spec: `Order.GetItems` is not in `report.go`.  It "returns
the set of distinct item-name values across all contained LineItems, as an
unordered collection with no duplicates". -/
def Order.GetItems (o : Order) : List String :=
  (o.lineItems.map LineItem.Item).dedup

/-- The policy by which an Order reports one customer name, given the customer
names of its LineItems in the order they were added.  The spec leaves open
which name is reported when the LineItems disagree. -/
abbrev CustomerPolicy := List String → String

/-- Modelled from the spec: `Order.GetCustomer` is not in `report.go`.  The
customer name is "derived from the LineItems' customer field"; which value is
reported when the LineItems disagree is an open question of the spec, so the
policy `pick` is a parameter. -/
def Order.GetCustomer (pick : CustomerPolicy) (o : Order) : String :=
  pick (o.lineItems.map LineItem.Customer)

/-- The struct `LineItemReconReport`: the raw data rows and the Orders map,
which is `nil` (`none`) in the zero value. -/
structure LineItemReconReport where
  rawLines : List (List String)
  Orders : Option (GoMap Int Order)
  deriving DecidableEq

/-- The entries of the Orders map; a `nil` map has none. -/
def LineItemReconReport.orders (l : LineItemReconReport) : GoMap Int Order :=
  match l.Orders with
  | none => []
  | some m => m

/-! ## `report.go` -/

/-- The method `readInput`: tokenizes the input with `csv.ReadAll` and keeps
`lines[1:]`.  Slicing an empty `lines` from 1 is out of range and panics. -/
def LineItemReconReport.readInput {ρ : Type}
    (ReadAll : ρ → Except String (List (List String)))
    (l : LineItemReconReport) (reportCsv : ρ) :
    GoResult (LineItemReconReport × Option String) :=
  match ReadAll reportCsv with
  | .error err => .ret (l, some err)
  | .ok lines =>
    match lines with
    | [] => .panic "runtime error: slice bounds out of range [1:0]"
    | _ :: rest => .ret ({ l with rawLines := rest }, none)

/-- The body of the loop of `parseRawLines` for a parsed LineItem: create the
Order on the first line of an order identifier, then add the LineItem to the
Order stored under that identifier.  Calling `AddLineItem` through a missing
(`nil`) entry would panic. -/
def addToOrders (orders : GoMap Int Order) (li : LineItem) :
    GoResult (GoMap Int Order) :=
  let orders1 :=
    match orders.get? li.OrderID with
    | none => orders.set li.OrderID NewOrder
    | some _ => orders
  match orders1.get? li.OrderID with
  | none => .panic "runtime error: invalid memory address or nil pointer dereference"
  | some o => .ret (orders1.set li.OrderID (o.AddLineItem li))

/-- The loop `for _, rl := range l.rawLines` of `parseRawLines`, on the Orders
map: the map after the loop and the error returned, if any. -/
def parseLoop (NewLineItem : List String → Except String LineItem) :
    List (List String) → GoMap Int Order → GoResult (GoMap Int Order × Option String)
  | [], orders => .ret (orders, none)
  | rl :: rest, orders =>
    match NewLineItem rl with
    | .error err =>
      .ret (orders, some ("failed to parse line [" ++ fmtStrings rl ++ "]: " ++ err))
    | .ok li =>
      match addToOrders orders li with
      | .panic msg => .panic msg
      | .ret orders1 => parseLoop NewLineItem rest orders1

/-- The method `parseRawLines`: the receiver after the call and the error. -/
def LineItemReconReport.parseRawLines
    (NewLineItem : List String → Except String LineItem)
    (l : LineItemReconReport) : GoResult (LineItemReconReport × Option String) :=
  let orders0 : GoMap Int Order :=
    match l.Orders with
    | none => []
    | some m => m
  match parseLoop NewLineItem l.rawLines orders0 with
  | .panic msg => .panic msg
  | .ret (orders, err) => .ret ({ l with Orders := some orders }, err)

/-- The constructor `NewLineItemReconReport`: the pair `(report, error)` it
returns, `none` standing for `nil`. -/
def NewLineItemReconReport {ρ : Type}
    (ReadAll : ρ → Except String (List (List String)))
    (NewLineItem : List String → Except String LineItem)
    (reportCsv : ρ) : GoResult (Option LineItemReconReport × Option String) :=
  let lirReport : LineItemReconReport := { rawLines := [], Orders := none }
  match lirReport.readInput ReadAll reportCsv with
  | .panic msg => .panic msg
  | .ret (_, some err) => .ret (none, some ("failed to parse input CSV: " ++ err))
  | .ret (lirReport1, none) =>
    match lirReport1.parseRawLines NewLineItem with
    | .panic msg => .panic msg
    | .ret (_, some err) => .ret (none, some ("failed to parse lines: " ++ err))
    | .ret (lirReport2, none) => .ret (some lirReport2, none)

/-- The method `GetItems` of the report.  `sOrders` schedules the range over
the Orders map and `sSet` the range over the string set `is`. -/
def LineItemReconReport.GetItems (sOrders sSet : Schedule)
    (l : LineItemReconReport) : List String :=
  let is : GoMap String Bool :=
    (rangeMap sOrders l.orders).foldl
      (fun is kv => kv.2.GetItems.foldl (fun is i => is.set i true) is) []
  (rangeMap sSet is).foldl (fun retItems kv => retItems ++ [kv.1]) []

/-- The method `GetCustomers` of the report.  `pick` is the policy of
`Order.GetCustomer`, `sOrders` schedules the range over the Orders map and
`sSet` the range over the string set `cs`. -/
def LineItemReconReport.GetCustomers (pick : CustomerPolicy) (sOrders sSet : Schedule)
    (l : LineItemReconReport) : List String :=
  let cs : GoMap String Bool :=
    (rangeMap sOrders l.orders).foldl
      (fun cs kv => cs.set (kv.2.GetCustomer pick) true) []
  (rangeMap sSet cs).foldl (fun retCusts kv => retCusts ++ [kv.1]) []

/-! ## Closed forms used in the proofs -/

/-- The Orders map after one LineItem is added: the Order stored under the
LineItem's identifier (a new Order when there is none) receives the LineItem. -/
def addItem (orders : GoMap Int Order) (li : LineItem) : GoMap Int Order :=
  orders.set li.OrderID (((orders.get? li.OrderID).getD NewOrder).AddLineItem li)

/-- The Orders map after a list of LineItems is added, in order. -/
def groupItems (orders : GoMap Int Order) (lis : List LineItem) : GoMap Int Order :=
  lis.foldl addItem orders

/-- The LineItems of the rows that `NewLineItem` accepts, in input order. -/
def parsedItems (NewLineItem : List String → Except String LineItem)
    (rows : List (List String)) : List LineItem :=
  rows.filterMap (fun rl => (NewLineItem rl).toOption)

/-- The number of LineItems summed across all Orders of a map. -/
def totalLineItems (orders : GoMap Int Order) : Nat :=
  (orders.map (fun kv => kv.2.lineItems.length)).sum

/-! ## A sample reader and row parser, for concrete evaluations -/

/-- A sample reader: the input stream is represented by what `csv.ReadAll`
obtains from it, the tokenized rows or the tokenizer's error. -/
def sampleReadAll (input : Except String (List (List String))) :
    Except String (List (List String)) :=
  input

/-- The value of a string of decimal digits, if it is one. -/
def digitsToInt : List Char → Option Nat
  | [] => none
  | cs => cs.foldl
      (fun acc c => acc.bind (fun n => if c.isDigit then some (10 * n + (c.toNat - 48)) else none))
      (some 0)

/-- A sample row parser with the three columns named by the spec: order
identifier, customer name, item name. -/
def sampleNewLineItem : List String → Except String LineItem
  | [id, customer, item] =>
    match digitsToInt id.data with
    | some n => .ok ⟨n, customer, item⟩
    | none => .error ("invalid order id: " ++ id)
  | _ => .error "wrong number of fields"

/-- A sample policy of `Order.GetCustomer`: the customer of the first LineItem. -/
def firstSeen : CustomerPolicy
  | [] => ""
  | c :: _ => c

/-- A sample policy of `Order.GetCustomer`: the customer of the last LineItem. -/
def lastSeen : CustomerPolicy
  | [] => ""
  | [c] => c
  | _ :: c :: cs => lastSeen (c :: cs)

/-- Sample tokenized input: a header row and three data rows, two of them of
order 100. -/
def sampleLines : List (List String) :=
  [["Order", "Customer", "Item"],
   ["100", "Jane Doe", "Ticket A"],
   ["100", "Jane Doe", "Ticket B"],
   ["7", "Bob", "Ticket A"]]

/-- Sample tokenized input whose second data row has a non-numeric order
identifier. -/
def sampleBadLines : List (List String) :=
  [["Order", "Customer", "Item"],
   ["100", "Jane Doe", "Ticket A"],
   ["abc", "Bob", "Ticket B"],
   ["7", "Bob", "Ticket A"]]

/-- Sample tokenized input in which the two rows of order 100 name different
customers. -/
def sampleMixedLines : List (List String) :=
  [["Order", "Customer", "Item"],
   ["100", "Jane Doe", "Ticket A"],
   ["100", "John Roe", "Ticket B"]]


/-- The Report that the sample input parses to. -/
def sampleReport : LineItemReconReport :=
  ⟨sampleLines.tail,
    some [(100, ⟨[⟨100, "Jane Doe", "Ticket A"⟩, ⟨100, "Jane Doe", "Ticket B"⟩]⟩),
      (7, ⟨[⟨7, "Bob", "Ticket A"⟩]⟩)]⟩

/-! ## Lemmas on the Go map model -/

namespace GoMap

variable {κ ν : Type} [DecidableEq κ]

theorem get?_set_self (m : GoMap κ ν) (k : κ) (v : ν) : (m.set k v).get? k = some v := by
  induction m with
  | nil => simp [set, get?]
  | cons e m ih =>
    obtain ⟨k', v'⟩ := e
    by_cases h : k' = k
    · simp [set, get?, h]
    · simp [set, get?, h, ih]

theorem get?_set_ne (m : GoMap κ ν) {k k' : κ} (v : ν) (h : k ≠ k') :
    (m.set k v).get? k' = m.get? k' := by
  induction m with
  | nil => simp [set, get?, h]
  | cons e m ih =>
    obtain ⟨k0, v0⟩ := e
    by_cases h0 : k0 = k
    · subst h0
      simp [set, get?, h]
    · by_cases h1 : k0 = k'
      · subst h1
        simp [set, get?, h0]
      · simp [set, get?, h0, h1, ih]

theorem set_set (m : GoMap κ ν) (k : κ) (v v' : ν) : (m.set k v).set k v' = m.set k v' := by
  induction m with
  | nil => simp [set]
  | cons e m ih =>
    obtain ⟨k0, v0⟩ := e
    by_cases h0 : k0 = k
    · simp [set, h0]
    · simp [set, h0, ih]

theorem get?_eq_none_iff (m : GoMap κ ν) (k : κ) : m.get? k = none ↔ k ∉ m.keys := by
  induction m with
  | nil => simp [get?, keys]
  | cons e m ih =>
    obtain ⟨k0, v0⟩ := e
    by_cases h0 : k0 = k
    · simp [get?, keys, h0]
    · have h1 : ¬ k = k0 := fun h => h0 h.symm
      simpa [get?, keys, h0, h1] using ih

theorem mem_of_get? {m : GoMap κ ν} {k : κ} {v : ν} (h : m.get? k = some v) : (k, v) ∈ m := by
  induction m with
  | nil => simp [get?] at h
  | cons e m ih =>
    obtain ⟨k0, v0⟩ := e
    by_cases h0 : k0 = k
    · simp [get?, h0] at h
      simp [h0, h]
    · simp [get?, h0] at h
      exact List.mem_cons_of_mem _ (ih h)

theorem get?_of_mem {m : GoMap κ ν} (hnd : m.keys.Nodup) {k : κ} {v : ν} (h : (k, v) ∈ m) :
    m.get? k = some v := by
  induction m with
  | nil => simp at h
  | cons e m ih =>
    obtain ⟨k0, v0⟩ := e
    simp only [keys, List.map_cons, List.nodup_cons] at hnd
    rcases List.mem_cons.1 h with h | h
    · cases h
      simp [get?]
    · have hk : k ∈ keys m := List.mem_map.2 ⟨(k, v), h, rfl⟩
      have h0 : k0 ≠ k := fun e => hnd.1 (e ▸ hk)
      simpa [get?, h0] using ih hnd.2 h

theorem keys_set (m : GoMap κ ν) (k : κ) (v : ν) :
    (m.set k v).keys = if k ∈ m.keys then m.keys else m.keys ++ [k] := by
  induction m with
  | nil => simp [set, keys]
  | cons e m ih =>
    obtain ⟨k0, v0⟩ := e
    by_cases h0 : k0 = k
    · simp [set, keys, h0]
    · have h1 : ¬ k = k0 := fun h => h0 h.symm
      simp only [keys] at ih
      simp only [set, keys, h0, if_false, List.map_cons, ih, List.mem_cons, h1, false_or]
      split <;> simp

theorem mem_keys_set (m : GoMap κ ν) (k : κ) (v : ν) (x : κ) :
    x ∈ (m.set k v).keys ↔ x = k ∨ x ∈ m.keys := by
  rw [keys_set]
  split
  · constructor
    · exact Or.inr
    · rintro (h | h)
      · subst h; assumption
      · exact h
  · simp [or_comm]

theorem nodup_keys_set (m : GoMap κ ν) (k : κ) (v : ν) (h : m.keys.Nodup) :
    (m.set k v).keys.Nodup := by
  rw [keys_set]
  split
  · exact h
  · rename_i hk
    exact List.Nodup.append h (List.nodup_singleton k) (by simpa using hk)

theorem length_keys_set_le (m : GoMap κ ν) (k : κ) (v : ν) :
    (m.set k v).keys.length ≤ m.keys.length + 1 := by
  rw [keys_set]
  split <;> simp

end GoMap

/-! ## Lemmas on iteration schedules -/

theorem pickOrder_perm {α : Type} (s : Schedule) (l : List α) : (pickOrder s l).Perm l := by
  induction s generalizing l with
  | nil => simp [pickOrder]
  | cons c cs ih =>
    unfold pickOrder
    split
    · exact List.Perm.refl _
    · rename_i y rest hd
      have hl : l = l.take (c % l.length) ++ y :: rest := by
        rw [← hd, List.take_append_drop]
      have h1 := ih (l.take (c % l.length) ++ rest)
      calc y :: pickOrder cs (l.take (c % l.length) ++ rest)
          |>.Perm (y :: (l.take (c % l.length) ++ rest)) := List.Perm.cons y h1
        _ |>.Perm (l.take (c % l.length) ++ y :: rest) := List.perm_middle.symm
        _ |>.Perm l := by rw [← hl]

/-- Every iteration order is selected by some schedule. -/
theorem pickOrder_complete {α : Type} (l' l : List α) (h : l'.Perm l) :
    ∃ s : Schedule, pickOrder s l = l' := by
  induction l' generalizing l with
  | nil =>
    have hl : l = [] := List.Perm.eq_nil h.symm
    exact ⟨[], by simp [pickOrder, hl]⟩
  | cons y t ih =>
    have hy : y ∈ l := h.subset (List.mem_cons_self y t)
    obtain ⟨a, b, hab⟩ := List.append_of_mem hy
    subst hab
    have ht : t.Perm (a ++ b) := (List.perm_cons y).1 (h.trans List.perm_middle)
    obtain ⟨s, hs⟩ := ih (a ++ b) ht
    refine ⟨a.length :: s, ?_⟩
    have hmod : a.length % (a ++ y :: b).length = a.length :=
      Nat.mod_eq_of_lt (by simp)
    unfold pickOrder
    rw [hmod]
    simp [hs]

theorem rangeMap_perm {κ ν : Type} (s : Schedule) (m : GoMap κ ν) : (rangeMap s m).Perm m :=
  pickOrder_perm s m

theorem foldl_append_fst {κ ν : Type} (l : List (κ × ν)) (acc : List κ) :
    l.foldl (fun ret kv => ret ++ [kv.1]) acc = acc ++ l.map Prod.fst := by
  induction l generalizing acc with
  | nil => simp
  | cons e l ih => simp [ih]

/-! ## Lemmas on the parsing loop -/

theorem addToOrders_eq (orders : GoMap Int Order) (li : LineItem) :
    addToOrders orders li = .ret (addItem orders li) := by
  unfold addToOrders addItem
  cases h : orders.get? li.OrderID with
  | none => simp [GoMap.get?_set_self, GoMap.set_set]
  | some o => simp [h]

theorem parseLoop_cons_ok (N : List String → Except String LineItem) (rl : List String)
    (rest : List (List String)) (orders : GoMap Int Order) (li : LineItem) (h : N rl = .ok li) :
    parseLoop N (rl :: rest) orders = parseLoop N rest (addItem orders li) := by
  simp [parseLoop, h, addToOrders_eq]

theorem parseLoop_cons_error (N : List String → Except String LineItem) (rl : List String)
    (rest : List (List String)) (orders : GoMap Int Order) (err : String)
    (h : N rl = .error err) :
    parseLoop N (rl :: rest) orders
      = .ret (orders, some ("failed to parse line [" ++ fmtStrings rl ++ "]: " ++ err)) := by
  simp [parseLoop, h]

theorem parseLoop_all_ok (N : List String → Except String LineItem) (rows : List (List String))
    (orders : GoMap Int Order) (hall : ∀ rl ∈ rows, ∃ li, N rl = .ok li) :
    parseLoop N rows orders = .ret (groupItems orders (parsedItems N rows), none) := by
  induction rows generalizing orders with
  | nil => simp [parseLoop, groupItems, parsedItems]
  | cons rl rest ih =>
    obtain ⟨li, hli⟩ := hall rl (List.mem_cons_self _ _)
    rw [parseLoop_cons_ok N rl rest orders li hli,
      ih _ (fun r hr => hall r (List.mem_cons_of_mem _ hr))]
    simp [groupItems, parsedItems, hli, Except.toOption]

theorem parseLoop_append (N : List String → Except String LineItem) (pre rest : List (List String))
    (orders : GoMap Int Order) (hall : ∀ rl ∈ pre, ∃ li, N rl = .ok li) :
    parseLoop N (pre ++ rest) orders = parseLoop N rest (groupItems orders (parsedItems N pre)) := by
  induction pre generalizing orders with
  | nil => simp [groupItems, parsedItems]
  | cons rl pre ih =>
    obtain ⟨li, hli⟩ := hall rl (List.mem_cons_self _ _)
    rw [List.cons_append, parseLoop_cons_ok N rl _ orders li hli,
      ih _ (fun r hr => hall r (List.mem_cons_of_mem _ hr))]
    simp [groupItems, parsedItems, hli, Except.toOption]

theorem parseLoop_no_error (N : List String → Except String LineItem) (rows : List (List String))
    (orders orders1 : GoMap Int Order) (h : parseLoop N rows orders = .ret (orders1, none)) :
    ∀ rl ∈ rows, ∃ li, N rl = .ok li := by
  induction rows generalizing orders with
  | nil => simp
  | cons rl rest ih =>
    cases hN : N rl with
    | error err => simp [parseLoop_cons_error N rl rest orders err hN] at h
    | ok li =>
      rw [parseLoop_cons_ok N rl rest orders li hN] at h
      intro r hr
      rcases List.mem_cons.1 hr with hr | hr
      · exact ⟨li, hr ▸ hN⟩
      · exact ih _ h r hr

theorem parseLoop_returns (N : List String → Except String LineItem) (rows : List (List String))
    (orders : GoMap Int Order) : ∃ orders1 err, parseLoop N rows orders = .ret (orders1, err) := by
  induction rows generalizing orders with
  | nil => exact ⟨orders, none, rfl⟩
  | cons rl rest ih =>
    cases hN : N rl with
    | error err => exact ⟨_, _, parseLoop_cons_error N rl rest orders err hN⟩
    | ok li =>
      rw [parseLoop_cons_ok N rl rest orders li hN]
      exact ih _

/-! ## Lemmas on grouping -/

theorem nodup_keys_addItem (orders : GoMap Int Order) (li : LineItem) (h : orders.keys.Nodup) :
    (addItem orders li).keys.Nodup :=
  GoMap.nodup_keys_set _ _ _ h

theorem nodup_keys_groupItems (orders : GoMap Int Order) (lis : List LineItem)
    (h : orders.keys.Nodup) : (groupItems orders lis).keys.Nodup := by
  induction lis generalizing orders with
  | nil => simpa [groupItems] using h
  | cons li lis ih => exact ih _ (nodup_keys_addItem orders li h)

theorem get?_groupItems (orders : GoMap Int Order) (lis : List LineItem) (k : Int) :
    (groupItems orders lis).get? k =
      if lis.filter (fun li => li.OrderID = k) = [] then orders.get? k
      else some ⟨((orders.get? k).getD NewOrder).lineItems
        ++ lis.filter (fun li => li.OrderID = k)⟩ := by
  induction lis generalizing orders with
  | nil => simp [groupItems]
  | cons li lis ih =>
    have hstep : groupItems orders (li :: lis) = groupItems (addItem orders li) lis := rfl
    rw [hstep, ih]
    by_cases hk : li.OrderID = k
    · subst hk
      simp only [addItem, GoMap.get?_set_self, List.filter_cons, decide_True, if_true,
        Option.getD_some, Order.AddLineItem]
      split <;> simp_all
    · have hget : (addItem orders li).get? k = orders.get? k := GoMap.get?_set_ne _ _ hk
      simp [hget, List.filter_cons, hk]

theorem totalLineItems_set (orders : GoMap Int Order) (k : Int) (o : Order) :
    totalLineItems (orders.set k o) + ((orders.get? k).getD NewOrder).lineItems.length
      = totalLineItems orders + o.lineItems.length := by
  induction orders with
  | nil => simp [GoMap.set, GoMap.get?, totalLineItems, NewOrder]
  | cons e m ih =>
    obtain ⟨k0, v0⟩ := e
    by_cases h0 : k0 = k
    · simp [GoMap.set, GoMap.get?, totalLineItems, h0]
      omega
    · simp only [totalLineItems] at ih
      simp [GoMap.set, GoMap.get?, totalLineItems, h0]
      omega

theorem totalLineItems_addItem (orders : GoMap Int Order) (li : LineItem) :
    totalLineItems (addItem orders li) = totalLineItems orders + 1 := by
  have h := totalLineItems_set orders li.OrderID
    (((orders.get? li.OrderID).getD NewOrder).AddLineItem li)
  simp only [Order.AddLineItem, List.length_append, List.length_singleton] at h
  unfold addItem
  simp only [Order.AddLineItem]
  omega

theorem totalLineItems_groupItems (orders : GoMap Int Order) (lis : List LineItem) :
    totalLineItems (groupItems orders lis) = totalLineItems orders + lis.length := by
  induction lis generalizing orders with
  | nil => simp [groupItems]
  | cons li lis ih =>
    have hstep : groupItems orders (li :: lis) = groupItems (addItem orders li) lis := rfl
    rw [hstep, ih, totalLineItems_addItem]
    simp
    omega

theorem parsedItems_cons_ok (N : List String → Except String LineItem) (rl : List String)
    (rest : List (List String)) (li : LineItem) (h : N rl = .ok li) :
    parsedItems N (rl :: rest) = li :: parsedItems N rest := by
  simp [parsedItems, h, Except.toOption]

theorem length_parsedItems (N : List String → Except String LineItem) (rows : List (List String))
    (hall : ∀ rl ∈ rows, ∃ li, N rl = .ok li) : (parsedItems N rows).length = rows.length := by
  induction rows with
  | nil => simp [parsedItems]
  | cons rl rest ih =>
    obtain ⟨li, hli⟩ := hall rl (List.mem_cons_self _ _)
    rw [parsedItems_cons_ok N rl rest li hli, List.length_cons, List.length_cons,
      ih (fun r hr => hall r (List.mem_cons_of_mem _ hr))]

theorem mem_parsedItems (N : List String → Except String LineItem) (rows : List (List String))
    (li : LineItem) : li ∈ parsedItems N rows ↔ ∃ rl ∈ rows, N rl = .ok li := by
  simp only [parsedItems, List.mem_filterMap]
  constructor
  · rintro ⟨rl, hrl, h⟩
    refine ⟨rl, hrl, ?_⟩
    cases hN : N rl with
    | error e => simp [hN, Except.toOption] at h
    | ok li0 =>
      simp [hN, Except.toOption] at h
      rw [h]
  · rintro ⟨rl, hrl, h⟩
    exact ⟨rl, hrl, by simp [h, Except.toOption]⟩

/-! ## Lemmas on the string sets of `GetItems` and `GetCustomers` -/

theorem mem_keys_insertAll (xs : List String) (is : GoMap String Bool) (x : String) :
    x ∈ (xs.foldl (fun is i => is.set i true) is).keys ↔ x ∈ is.keys ∨ x ∈ xs := by
  induction xs generalizing is with
  | nil => simp
  | cons y ys ih =>
    rw [List.foldl_cons, ih, GoMap.mem_keys_set, List.mem_cons]
    tauto

theorem nodup_keys_insertAll (xs : List String) (is : GoMap String Bool) (h : is.keys.Nodup) :
    (xs.foldl (fun is i => is.set i true) is).keys.Nodup := by
  induction xs generalizing is with
  | nil => simpa using h
  | cons y ys ih => exact ih _ (GoMap.nodup_keys_set _ _ _ h)

theorem mem_keys_itemSet (es : List (Int × Order)) (is : GoMap String Bool) (x : String) :
    x ∈ (es.foldl (fun is kv => kv.2.GetItems.foldl (fun is i => is.set i true) is) is).keys
      ↔ x ∈ is.keys ∨ ∃ kv ∈ es, x ∈ kv.2.GetItems := by
  induction es generalizing is with
  | nil => simp
  | cons e es ih =>
    rw [List.foldl_cons, ih, mem_keys_insertAll]
    simp only [List.mem_cons, exists_eq_or_imp]
    tauto

theorem nodup_keys_itemSet (es : List (Int × Order)) (is : GoMap String Bool)
    (h : is.keys.Nodup) :
    (es.foldl (fun is kv => kv.2.GetItems.foldl (fun is i => is.set i true) is) is).keys.Nodup := by
  induction es generalizing is with
  | nil => simpa using h
  | cons e es ih => exact ih _ (nodup_keys_insertAll _ _ h)

theorem mem_keys_customerSet (pick : CustomerPolicy) (es : List (Int × Order)) (cs : GoMap String Bool) (x : String) :
    x ∈ (es.foldl (fun cs kv => cs.set (kv.2.GetCustomer pick) true) cs).keys
      ↔ x ∈ cs.keys ∨ ∃ kv ∈ es, kv.2.GetCustomer pick = x := by
  induction es generalizing cs with
  | nil => simp
  | cons e es ih =>
    rw [List.foldl_cons, ih, GoMap.mem_keys_set]
    simp only [List.mem_cons, exists_eq_or_imp]
    constructor
    · rintro ((h | h) | h)
      · exact Or.inr (Or.inl h.symm)
      · exact Or.inl h
      · exact Or.inr (Or.inr h)
    · rintro (h | h | h)
      · exact Or.inl (Or.inr h)
      · exact Or.inl (Or.inl h.symm)
      · exact Or.inr h

theorem nodup_keys_customerSet (pick : CustomerPolicy) (es : List (Int × Order)) (cs : GoMap String Bool)
    (h : cs.keys.Nodup) :
    (es.foldl (fun cs kv => cs.set (kv.2.GetCustomer pick) true) cs).keys.Nodup := by
  induction es generalizing cs with
  | nil => simpa using h
  | cons e es ih => exact ih _ (GoMap.nodup_keys_set _ _ _ h)

theorem length_keys_customerSet (pick : CustomerPolicy) (es : List (Int × Order)) (cs : GoMap String Bool) :
    (es.foldl (fun cs kv => cs.set (kv.2.GetCustomer pick) true) cs).keys.length
      ≤ cs.keys.length + es.length := by
  induction es generalizing cs with
  | nil => simp
  | cons e es ih =>
    rw [List.foldl_cons]
    have h1 := ih (cs.set (e.2.GetCustomer pick) true)
    have h2 := GoMap.length_keys_set_le cs (e.2.GetCustomer pick) true
    simp only [List.length_cons]
    omega

/-! ## Characterisation of the report's queries -/

theorem GetItems_perm (sOrders sSet : Schedule) (l : LineItemReconReport) :
    (l.GetItems sOrders sSet).Perm
      (GoMap.keys ((rangeMap sOrders l.orders).foldl
        (fun is kv => kv.2.GetItems.foldl (fun is i => is.set i true) is)
        ([] : GoMap String Bool))) := by
  unfold LineItemReconReport.GetItems
  simp only [foldl_append_fst, List.nil_append]
  exact (rangeMap_perm sSet _).map Prod.fst

theorem nodup_GetItems (sOrders sSet : Schedule) (l : LineItemReconReport) :
    (l.GetItems sOrders sSet).Nodup :=
  (GetItems_perm sOrders sSet l).nodup_iff.2
    (nodup_keys_itemSet _ _ (by simp [GoMap.keys]))

theorem mem_GetItems (sOrders sSet : Schedule) (l : LineItemReconReport) (x : String) :
    x ∈ l.GetItems sOrders sSet ↔ ∃ kv ∈ l.orders, x ∈ kv.2.GetItems := by
  rw [(GetItems_perm sOrders sSet l).mem_iff, mem_keys_itemSet]
  simp only [GoMap.keys, List.map_nil, List.not_mem_nil, false_or]
  constructor
  · rintro ⟨kv, hkv, hx⟩
    exact ⟨kv, (rangeMap_perm sOrders _).mem_iff.1 hkv, hx⟩
  · rintro ⟨kv, hkv, hx⟩
    exact ⟨kv, (rangeMap_perm sOrders _).mem_iff.2 hkv, hx⟩

theorem GetCustomers_perm (pick : CustomerPolicy) (sOrders sSet : Schedule) (l : LineItemReconReport) :
    (l.GetCustomers pick sOrders sSet).Perm
      (GoMap.keys ((rangeMap sOrders l.orders).foldl
        (fun cs kv => cs.set (kv.2.GetCustomer pick) true) ([] : GoMap String Bool))) := by
  unfold LineItemReconReport.GetCustomers
  simp only [foldl_append_fst, List.nil_append]
  exact (rangeMap_perm sSet _).map Prod.fst

theorem nodup_GetCustomers (pick : CustomerPolicy) (sOrders sSet : Schedule) (l : LineItemReconReport) :
    (l.GetCustomers pick sOrders sSet).Nodup :=
  (GetCustomers_perm pick sOrders sSet l).nodup_iff.2
    (nodup_keys_customerSet pick _ _ (by simp [GoMap.keys]))

theorem mem_GetCustomers (pick : CustomerPolicy) (sOrders sSet : Schedule) (l : LineItemReconReport) (x : String) :
    x ∈ l.GetCustomers pick sOrders sSet ↔ ∃ kv ∈ l.orders, kv.2.GetCustomer pick = x := by
  rw [(GetCustomers_perm pick sOrders sSet l).mem_iff, mem_keys_customerSet]
  simp only [GoMap.keys, List.map_nil, List.not_mem_nil, false_or]
  constructor
  · rintro ⟨kv, hkv, hx⟩
    exact ⟨kv, (rangeMap_perm sOrders _).mem_iff.1 hkv, hx⟩
  · rintro ⟨kv, hkv, hx⟩
    exact ⟨kv, (rangeMap_perm sOrders _).mem_iff.2 hkv, hx⟩

theorem length_GetCustomers_le (pick : CustomerPolicy) (sOrders sSet : Schedule) (l : LineItemReconReport) :
    (l.GetCustomers pick sOrders sSet).length ≤ l.orders.length := by
  rw [(GetCustomers_perm pick sOrders sSet l).length_eq]
  have h := length_keys_customerSet pick (rangeMap sOrders l.orders) []
  rw [(rangeMap_perm sOrders l.orders).length_eq] at h
  simpa [GoMap.keys] using h

/-! ## Characterisation of `parseRawLines` and of the constructor -/

theorem parseRawLines_all_ok (N : List String → Except String LineItem)
    (l : LineItemReconReport) (hall : ∀ rl ∈ l.rawLines, ∃ li, N rl = .ok li) :
    l.parseRawLines N
      = .ret ({ l with Orders := some (groupItems l.orders (parsedItems N l.rawLines)) },
          none) := by
  unfold LineItemReconReport.parseRawLines LineItemReconReport.orders
  simp only
  rw [parseLoop_all_ok N l.rawLines _ hall]

theorem parseRawLines_first_error (N : List String → Except String LineItem)
    (pre post : List (List String)) (rl : List String) (err : String)
    (init : Option (GoMap Int Order))
    (hpre : ∀ r ∈ pre, ∃ li, N r = .ok li) (hrl : N rl = .error err) :
    (⟨pre ++ rl :: post, init⟩ : LineItemReconReport).parseRawLines N
      = .ret (⟨pre ++ rl :: post,
            some (groupItems (LineItemReconReport.orders ⟨pre, init⟩) (parsedItems N pre))⟩,
          some ("failed to parse line [" ++ fmtStrings rl ++ "]: " ++ err)) := by
  unfold LineItemReconReport.parseRawLines LineItemReconReport.orders
  simp only
  rw [parseLoop_append N pre (rl :: post) _ hpre, parseLoop_cons_error N rl post _ err hrl]

/-- Every list of rows splits at its first row that `NewLineItem` rejects. -/
theorem split_first_error (N : List String → Except String LineItem) (rows : List (List String)) :
    (∀ rl ∈ rows, ∃ li, N rl = .ok li) ∨
    ∃ pre rl post err, rows = pre ++ rl :: post ∧ (∀ r ∈ pre, ∃ li, N r = .ok li)
      ∧ N rl = .error err := by
  induction rows with
  | nil => left; simp
  | cons r rest ih =>
    cases hN : N r with
    | error err => exact Or.inr ⟨[], r, rest, err, rfl, by simp, hN⟩
    | ok li =>
      rcases ih with h | ⟨pre, rl, post, err, hrows, hpre, hrl⟩
      · left
        intro x hx
        rcases List.mem_cons.1 hx with hx | hx
        · exact ⟨li, hx ▸ hN⟩
        · exact h x hx
      · right
        refine ⟨r :: pre, rl, post, err, by simp [hrows], ?_, hrl⟩
        intro x hx
        rcases List.mem_cons.1 hx with hx | hx
        · exact ⟨li, hx ▸ hN⟩
        · exact hpre x hx

theorem NewLineItemReconReport_tokenize_error {ρ : Type}
    (R : ρ → Except String (List (List String))) (N : List String → Except String LineItem)
    (input : ρ) (err : String) (h : R input = .error err) :
    NewLineItemReconReport R N input
      = .ret (none, some ("failed to parse input CSV: " ++ err)) := by
  simp [NewLineItemReconReport, LineItemReconReport.readInput, h]

theorem NewLineItemReconReport_no_rows {ρ : Type}
    (R : ρ → Except String (List (List String))) (N : List String → Except String LineItem)
    (input : ρ) (h : R input = .ok []) :
    NewLineItemReconReport R N input
      = .panic "runtime error: slice bounds out of range [1:0]" := by
  simp [NewLineItemReconReport, LineItemReconReport.readInput, h]

theorem NewLineItemReconReport_rows_ok {ρ : Type}
    (R : ρ → Except String (List (List String))) (N : List String → Except String LineItem)
    (input : ρ) (hdr : List String) (rows : List (List String))
    (h : R input = .ok (hdr :: rows)) (hall : ∀ rl ∈ rows, ∃ li, N rl = .ok li) :
    NewLineItemReconReport R N input
      = .ret (some ⟨rows, some (groupItems [] (parsedItems N rows))⟩, none) := by
  have hp := parseRawLines_all_ok N ⟨rows, none⟩ hall
  simp only [LineItemReconReport.orders] at hp
  simp [NewLineItemReconReport, LineItemReconReport.readInput, h, hp]

theorem NewLineItemReconReport_row_error {ρ : Type}
    (R : ρ → Except String (List (List String))) (N : List String → Except String LineItem)
    (input : ρ) (hdr rl : List String) (pre post : List (List String)) (err : String)
    (h : R input = .ok (hdr :: (pre ++ rl :: post)))
    (hpre : ∀ r ∈ pre, ∃ li, N r = .ok li) (hrl : N rl = .error err) :
    NewLineItemReconReport R N input
      = .ret (none, some ("failed to parse lines: "
          ++ ("failed to parse line [" ++ fmtStrings rl ++ "]: " ++ err))) := by
  have hp := parseRawLines_first_error N pre post rl err none hpre hrl
  simp [NewLineItemReconReport, LineItemReconReport.readInput, h, hp]

theorem NewLineItemReconReport_success {ρ : Type}
    (R : ρ → Except String (List (List String))) (N : List String → Except String LineItem)
    (input : ρ) (rep : LineItemReconReport)
    (h : NewLineItemReconReport R N input = .ret (some rep, none)) :
    ∃ hdr rows, R input = .ok (hdr :: rows) ∧ (∀ rl ∈ rows, ∃ li, N rl = .ok li)
      ∧ rep = ⟨rows, some (groupItems [] (parsedItems N rows))⟩ := by
  cases hR : R input with
  | error err => simp [NewLineItemReconReport_tokenize_error R N input err hR] at h
  | ok lines =>
    cases lines with
    | nil => simp [NewLineItemReconReport_no_rows R N input hR] at h
    | cons hdr rows =>
      rcases split_first_error N rows with hall | ⟨pre, rl, post, err, hrows, hpre, hrl⟩
      · rw [NewLineItemReconReport_rows_ok R N input hdr rows hR hall] at h
        simp only [GoResult.ret.injEq, Prod.mk.injEq, Option.some.injEq, and_true] at h
        exact ⟨hdr, rows, rfl, hall, h.symm⟩
      · subst hrows
        simp [NewLineItemReconReport_row_error R N input hdr rl pre post err hR hpre hrl] at h

/-! ## Grouping from an empty Orders map -/

theorem get?_groupItems_nil (lis : List LineItem) (k : Int) :
    (groupItems [] lis).get? k =
      if lis.filter (fun li => li.OrderID = k) = [] then none
      else some ⟨lis.filter (fun li => li.OrderID = k)⟩ := by
  rw [get?_groupItems]
  simp [GoMap.get?, NewOrder]

theorem mem_groupItems_nil (lis : List LineItem) (k : Int) (o : Order) :
    (k, o) ∈ groupItems [] lis ↔
      o = ⟨lis.filter (fun li => li.OrderID = k)⟩ ∧ lis.filter (fun li => li.OrderID = k) ≠ [] := by
  have hnd : (groupItems [] lis).keys.Nodup := nodup_keys_groupItems [] lis (by simp [GoMap.keys])
  constructor
  · intro h
    have hg := GoMap.get?_of_mem hnd h
    rw [get?_groupItems_nil] at hg
    split at hg
    · simp at hg
    · rename_i hne
      simp only [Option.some.injEq] at hg
      exact ⟨hg.symm, hne⟩
  · rintro ⟨ho, hne⟩
    apply GoMap.mem_of_get?
    rw [get?_groupItems_nil, if_neg hne, ho]

theorem mem_keys_groupItems_nil (lis : List LineItem) (k : Int) :
    k ∈ (groupItems [] lis).keys ↔ ∃ li ∈ lis, li.OrderID = k := by
  have h := GoMap.get?_eq_none_iff (groupItems [] lis) k
  rw [get?_groupItems_nil] at h
  by_cases hf : lis.filter (fun li => li.OrderID = k) = []
  · rw [if_pos hf] at h
    have hk : k ∉ (groupItems [] lis).keys := h.1 rfl
    simp only [hk, false_iff]
    rintro ⟨li, hli, hid⟩
    have : li ∈ lis.filter (fun li => li.OrderID = k) := by simp [List.mem_filter, hli, hid]
    rw [hf] at this
    simp at this
  · rw [if_neg hf] at h
    have hk : k ∈ (groupItems [] lis).keys := by
      by_contra hc
      have := h.2 hc
      simp at this
    simp only [hk, true_iff]
    obtain ⟨li, hli⟩ := List.exists_mem_of_ne_nil _ hf
    rw [List.mem_filter] at hli
    exact ⟨li, hli.1, by simpa using hli.2⟩

/-! ## Sample data -/

theorem sampleLines_parse : ∀ rl ∈ sampleLines.tail, ∃ li, sampleNewLineItem rl = .ok li := by
  intro rl h
  simp only [sampleLines, List.tail_cons, List.mem_cons, List.mem_singleton,
    List.not_mem_nil, or_false] at h
  rcases h with rfl | rfl | rfl <;> exact ⟨_, rfl⟩

/-! ## The claims -/

/-- C1 (grouping invariant): when `NewLineItem` succeeds on every row and the
Orders map is empty at the start, `parseRawLines` returns without error, the
keys of the resulting Orders map are pairwise distinct, and the LineItem built
from each row is held by exactly one Order of the map, whose key is the
LineItem's `OrderID`. -/
theorem C1_grouping_invariant (N : List String → Except String LineItem)
    (l : LineItemReconReport) (hempty : l.orders = [])
    (hall : ∀ rl ∈ l.rawLines, ∃ li, N rl = .ok li) :
    ∃ orders : GoMap Int Order,
      l.parseRawLines N = .ret ({ l with Orders := some orders }, none) ∧
      orders.keys.Nodup ∧
      ∀ rl ∈ l.rawLines, ∀ li, N rl = .ok li →
        (∃! kv : Int × Order, kv ∈ orders ∧ li ∈ kv.2.lineItems) ∧
        ∀ kv ∈ orders, li ∈ kv.2.lineItems → kv.1 = li.OrderID := by
  refine ⟨groupItems [] (parsedItems N l.rawLines), ?_, ?_, ?_⟩
  · rw [parseRawLines_all_ok N l hall, hempty]
  · exact nodup_keys_groupItems [] _ (by simp [GoMap.keys])
  · intro rl hrl li hli
    have hmem : li ∈ parsedItems N l.rawLines := (mem_parsedItems N _ li).2 ⟨rl, hrl, hli⟩
    have hkey : ∀ kv ∈ groupItems [] (parsedItems N l.rawLines),
        li ∈ kv.2.lineItems → kv.1 = li.OrderID := by
      rintro ⟨k, o⟩ hkv hin
      obtain ⟨ho, -⟩ := (mem_groupItems_nil _ k o).1 hkv
      subst ho
      have := (List.mem_filter.1 hin).2
      exact (of_decide_eq_true this).symm
    have hin : li ∈ (parsedItems N l.rawLines).filter (fun x => x.OrderID = li.OrderID) := by
      simp [List.mem_filter, hmem]
    refine ⟨⟨(li.OrderID, ⟨(parsedItems N l.rawLines).filter (fun x => x.OrderID = li.OrderID)⟩),
      ⟨?_, hin⟩, ?_⟩, hkey⟩
    · exact (mem_groupItems_nil _ _ _).2 ⟨rfl, List.ne_nil_of_mem hin⟩
    · rintro ⟨k, o⟩ ⟨hkv, hli'⟩
      have hk : k = li.OrderID := hkey (k, o) hkv hli'
      subst hk
      obtain ⟨ho, -⟩ := (mem_groupItems_nil _ _ o).1 hkv
      rw [ho]

/-- Witness of C1 on the sample rows, parsed into a report whose Orders map is
`nil`. -/
theorem C1_grouping_invariant_witness :
    (⟨sampleLines.tail, none⟩ : LineItemReconReport).orders = [] ∧
    (∀ rl ∈ sampleLines.tail, ∃ li, sampleNewLineItem rl = .ok li) ∧
    ∃ orders : GoMap Int Order,
      (⟨sampleLines.tail, none⟩ : LineItemReconReport).parseRawLines sampleNewLineItem
        = .ret (⟨sampleLines.tail, some orders⟩, none) ∧
      orders.keys.Nodup ∧
      ∀ rl ∈ sampleLines.tail, ∀ li, sampleNewLineItem rl = .ok li →
        (∃! kv : Int × Order, kv ∈ orders ∧ li ∈ kv.2.lineItems) ∧
        ∀ kv ∈ orders, li ∈ kv.2.lineItems → kv.1 = li.OrderID :=
  ⟨rfl, sampleLines_parse,
    C1_grouping_invariant sampleNewLineItem ⟨sampleLines.tail, none⟩ rfl sampleLines_parse⟩

/-- C2 (line item count): when the tokenizer yields a header row followed by
data rows that `NewLineItem` all accepts, `NewLineItemReconReport` returns a
Report, and the number of LineItems summed across its Orders equals the number
of data rows, the number of tokenized rows minus one. -/
theorem C2_line_item_count {ρ : Type} (R : ρ → Except String (List (List String)))
    (N : List String → Except String LineItem) (input : ρ)
    (hdr : List String) (rows : List (List String))
    (htok : R input = .ok (hdr :: rows)) (hall : ∀ rl ∈ rows, ∃ li, N rl = .ok li) :
    ∃ rep, NewLineItemReconReport R N input = .ret (some rep, none) ∧
      totalLineItems rep.orders = rows.length ∧
      totalLineItems rep.orders = (hdr :: rows).length - 1 := by
  have hcount : totalLineItems (groupItems [] (parsedItems N rows)) = rows.length := by
    rw [totalLineItems_groupItems, length_parsedItems N rows hall]
    simp [totalLineItems]
  exact ⟨_, NewLineItemReconReport_rows_ok R N input hdr rows htok hall, hcount,
    by simpa using hcount⟩

/-- Witness of C2 on the sample input: three data rows, three LineItems. -/
theorem C2_line_item_count_witness :
    sampleReadAll (.ok sampleLines) = .ok (["Order", "Customer", "Item"] :: sampleLines.tail) ∧
    (∀ rl ∈ sampleLines.tail, ∃ li, sampleNewLineItem rl = .ok li) ∧
    ∃ rep, NewLineItemReconReport sampleReadAll sampleNewLineItem (.ok sampleLines)
        = .ret (some rep, none) ∧
      totalLineItems rep.orders = sampleLines.tail.length ∧
      totalLineItems rep.orders = (["Order", "Customer", "Item"] :: sampleLines.tail).length - 1 :=
  ⟨rfl, sampleLines_parse,
    C2_line_item_count sampleReadAll sampleNewLineItem (.ok sampleLines)
      ["Order", "Customer", "Item"] sampleLines.tail rfl sampleLines_parse⟩

/-- C3, counterexample: on an input that tokenizes to zero rows the tokenizer
succeeds and there is no data row for `NewLineItem` to reject, yet
`NewLineItemReconReport` returns neither a Report nor an error: it panics. -/
theorem C3_counterexample_no_rows :
    (∃ lines, sampleReadAll (.ok []) = .ok lines ∧
      ∀ rl ∈ lines.drop 1, ∃ li, sampleNewLineItem rl = .ok li) ∧
    (¬ ∃ rep, NewLineItemReconReport sampleReadAll sampleNewLineItem (.ok [])
        = .ret (some rep, none)) ∧
    (¬ ∃ err, NewLineItemReconReport sampleReadAll sampleNewLineItem (.ok [])
        = .ret (none, some err)) ∧
    NewLineItemReconReport sampleReadAll sampleNewLineItem (.ok [])
      = .panic "runtime error: slice bounds out of range [1:0]" := by
  refine ⟨⟨[], rfl, by simp⟩, ?_, ?_, rfl⟩
  · rintro ⟨rep, h⟩
    have h0 : NewLineItemReconReport sampleReadAll sampleNewLineItem (.ok [])
      = .panic "runtime error: slice bounds out of range [1:0]" := rfl
    rw [h0] at h
    cases h
  · rintro ⟨err, h⟩
    have h0 : NewLineItemReconReport sampleReadAll sampleNewLineItem (.ok [])
      = .panic "runtime error: slice bounds out of range [1:0]" := rfl
    rw [h0] at h
    cases h

/-- C3, amended (all-or-nothing construction): `NewLineItemReconReport` returns
a Report with a nil error if and only if the tokenizer succeeds with at least
one row (the header) and `NewLineItem` succeeds on every data row; when the
tokenizer fails, or yields a header and some data row that `NewLineItem`
rejects, it returns a nil Report with a non-nil error; and whenever it returns,
exactly one of the Report and the error is nil. -/
theorem C3_all_or_nothing {ρ : Type} (R : ρ → Except String (List (List String)))
    (N : List String → Except String LineItem) (input : ρ) :
    ((∃ rep, NewLineItemReconReport R N input = .ret (some rep, none)) ↔
      ∃ hdr rows, R input = .ok (hdr :: rows) ∧ ∀ rl ∈ rows, ∃ li, N rl = .ok li) ∧
    (((∃ e, R input = .error e) ∨
        ∃ hdr rows, R input = .ok (hdr :: rows) ∧ ∃ rl ∈ rows, ∃ e, N rl = .error e) →
      ∃ err, NewLineItemReconReport R N input = .ret (none, some err)) ∧
    (∀ rep err, NewLineItemReconReport R N input = .ret (rep, err) →
      (rep.isSome ∧ err = none) ∨ (rep = none ∧ err.isSome)) := by
  refine ⟨⟨?_, ?_⟩, ?_, ?_⟩
  · rintro ⟨rep, h⟩
    obtain ⟨hdr, rows, hR, hall, -⟩ := NewLineItemReconReport_success R N input rep h
    exact ⟨hdr, rows, hR, hall⟩
  · rintro ⟨hdr, rows, hR, hall⟩
    exact ⟨_, NewLineItemReconReport_rows_ok R N input hdr rows hR hall⟩
  · rintro (⟨e, hR⟩ | ⟨hdr, rows, hR, rl, hrl, e, he⟩)
    · exact ⟨_, NewLineItemReconReport_tokenize_error R N input e hR⟩
    · rcases split_first_error N rows with hall | ⟨pre, rl', post, err, hrows, hpre, hrl'⟩
      · obtain ⟨li, hli⟩ := hall rl hrl
        rw [hli] at he
        cases he
      · subst hrows
        exact ⟨_, NewLineItemReconReport_row_error R N input hdr rl' pre post err hR hpre hrl'⟩
  · intro rep err h
    cases hR : R input with
    | error e =>
      rw [NewLineItemReconReport_tokenize_error R N input e hR] at h
      cases h
      exact Or.inr ⟨rfl, rfl⟩
    | ok lines =>
      cases lines with
      | nil =>
        rw [NewLineItemReconReport_no_rows R N input hR] at h
        cases h
      | cons hdr rows =>
        rcases split_first_error N rows with hall | ⟨pre, rl, post, e, hrows, hpre, hrl⟩
        · rw [NewLineItemReconReport_rows_ok R N input hdr rows hR hall] at h
          cases h
          exact Or.inl ⟨rfl, rfl⟩
        · subst hrows
          rw [NewLineItemReconReport_row_error R N input hdr rl pre post e hR hpre hrl] at h
          cases h
          exact Or.inr ⟨rfl, rfl⟩

/-! ## Lemmas on the Orders of a constructed Report -/

theorem mem_GetItems_of_mem (o : Order) (li : LineItem) (h : li ∈ o.lineItems) :
    li.Item ∈ o.GetItems := by
  unfold Order.GetItems
  exact List.mem_dedup.2 (List.mem_map.2 ⟨li, h, rfl⟩)

theorem held_of_mem (lis : List LineItem) (li : LineItem) (h : li ∈ lis) :
    ∃ kv ∈ groupItems [] lis, kv.1 = li.OrderID ∧ li ∈ kv.2.lineItems := by
  have hin : li ∈ lis.filter (fun x => x.OrderID = li.OrderID) := by
    simp [List.mem_filter, h]
  exact ⟨(li.OrderID, ⟨lis.filter (fun x => x.OrderID = li.OrderID)⟩),
    (mem_groupItems_nil _ _ _).2 ⟨rfl, List.ne_nil_of_mem hin⟩, rfl, hin⟩

theorem mem_GetCustomers_constructed (pick : CustomerPolicy) (sOrders sSet : Schedule)
    (rows : List (List String)) (lis : List LineItem) (c : String) :
    c ∈ (⟨rows, some (groupItems [] lis)⟩ : LineItemReconReport).GetCustomers pick sOrders sSet ↔
      ∃ k, (∃ li ∈ lis, li.OrderID = k) ∧
        pick ((lis.filter (fun x => x.OrderID = k)).map LineItem.Customer) = c := by
  rw [mem_GetCustomers]
  simp only [LineItemReconReport.orders]
  constructor
  · rintro ⟨⟨k, o⟩, hkv, hc⟩
    have hk : k ∈ (groupItems [] lis).keys := List.mem_map.2 ⟨(k, o), hkv, rfl⟩
    obtain ⟨ho, -⟩ := (mem_groupItems_nil lis k o).1 hkv
    subst ho
    exact ⟨k, (mem_keys_groupItems_nil lis k).1 hk, hc⟩
  · rintro ⟨k, ⟨li, hli, hid⟩, hc⟩
    have hin : li ∈ lis.filter (fun x => x.OrderID = k) := by
      simp [List.mem_filter, hli, hid]
    exact ⟨(k, ⟨lis.filter (fun x => x.OrderID = k)⟩),
      (mem_groupItems_nil lis k _).2 ⟨rfl, List.ne_nil_of_mem hin⟩, hc⟩

theorem firstSeen_shared (cs : List String) (c : String) (hne : cs ≠ [])
    (hall : ∀ x ∈ cs, x = c) : firstSeen cs = c := by
  cases cs with
  | nil => exact absurd rfl hne
  | cons a as => exact hall a (List.mem_cons_self a as)

theorem lastSeen_shared (cs : List String) (c : String) (hne : cs ≠ [])
    (hall : ∀ x ∈ cs, x = c) : lastSeen cs = c := by
  induction cs with
  | nil => exact absurd rfl hne
  | cons a as ih =>
    cases as with
    | nil => exact hall a (List.mem_cons_self a [])
    | cons b bs =>
      exact ih (List.cons_ne_nil b bs) (fun x hx => hall x (List.mem_cons_of_mem a hx))

/-! ## Lemmas on the text of the row in the error message -/

theorem intercalate_go_infix (sep : String) (fields : List String) (acc : String) :
    acc.data <:+: (String.intercalate.go acc sep fields).data ∧
    ∀ f ∈ fields, f.data <:+: (String.intercalate.go acc sep fields).data := by
  induction fields generalizing acc with
  | nil => exact ⟨List.infix_refl _, by simp⟩
  | cons a as ih =>
    obtain ⟨h1, h2⟩ := ih (acc ++ sep ++ a)
    have hacc : acc.data <:+: (acc ++ sep ++ a).data := by
      rw [String.data_append, String.data_append, List.append_assoc]
      exact (List.prefix_append _ _).isInfix
    have ha : a.data <:+: (acc ++ sep ++ a).data := by
      rw [String.data_append]
      exact (List.suffix_append _ _).isInfix
    refine ⟨hacc.trans h1, ?_⟩
    intro f hf
    rcases List.mem_cons.1 hf with hf | hf
    · subst hf
      exact ha.trans h1
    · exact h2 f hf

theorem intercalate_infix (sep : String) (fields : List String) (f : String) (hf : f ∈ fields) :
    f.data <:+: (sep.intercalate fields).data := by
  cases fields with
  | nil => simp at hf
  | cons a as =>
    have h := intercalate_go_infix sep as a
    rcases List.mem_cons.1 hf with hf | hf
    · subst hf
      exact h.1
    · exact h.2 f hf

/-- The error text of `parseRawLines`, with the row written out. -/
theorem parse_error_text (rl : List String) (cause : String) :
    "failed to parse line [" ++ fmtStrings rl ++ "]: " ++ cause
      = "failed to parse line [[" ++ " ".intercalate rl ++ "]]: " ++ cause := by
  apply String.ext
  simp [fmtStrings, String.data_append]

theorem field_infix_error_text (rl : List String) (cause f : String) (hf : f ∈ rl) :
    f.data <:+: ("failed to parse line [[" ++ " ".intercalate rl ++ "]]: " ++ cause).data := by
  have h := intercalate_infix " " rl f hf
  simp only [String.data_append]
  exact h.trans ⟨"failed to parse line [[".data, "]]: ".data ++ cause.data, by simp⟩

theorem cause_suffix_error_text (rl : List String) (cause : String) :
    cause.data <:+ ("failed to parse line [[" ++ " ".intercalate rl ++ "]]: " ++ cause).data := by
  rw [String.data_append]
  exact List.suffix_append _ _

/-! ## The claims, continued -/

/-- C4 (first failing row): when `NewLineItem` accepts the rows `pre` and
rejects the next row `rl` with the error `cause`, `parseRawLines` returns the
error whose text is "failed to parse line [[", the fields of `rl` separated by
blanks, "]]: " and `cause`: every field of `rl` occurs in the text, which ends
with `cause`.  The Orders map it leaves is the one obtained by parsing `pre`
alone, whatever rows follow `rl`: it holds `pre.length` more LineItems than at
the start, so neither `rl` nor any later row is added to an Order. -/
theorem C4_stops_at_first_failing_row (N : List String → Except String LineItem)
    (pre post : List (List String)) (rl : List String) (cause : String)
    (init : Option (GoMap Int Order))
    (hpre : ∀ r ∈ pre, ∃ li, N r = .ok li) (hrl : N rl = .error cause) :
    ∃ orders1 : GoMap Int Order,
      (⟨pre ++ rl :: post, init⟩ : LineItemReconReport).parseRawLines N
        = .ret (⟨pre ++ rl :: post, some orders1⟩,
            some ("failed to parse line [[" ++ " ".intercalate rl ++ "]]: " ++ cause)) ∧
      (∀ f ∈ rl,
        f.data <:+: ("failed to parse line [[" ++ " ".intercalate rl ++ "]]: " ++ cause).data) ∧
      cause.data <:+ ("failed to parse line [[" ++ " ".intercalate rl ++ "]]: " ++ cause).data ∧
      (⟨pre, init⟩ : LineItemReconReport).parseRawLines N = .ret (⟨pre, some orders1⟩, none) ∧
      totalLineItems orders1
        = totalLineItems (LineItemReconReport.orders ⟨pre, init⟩) + pre.length := by
  refine ⟨groupItems (LineItemReconReport.orders ⟨pre, init⟩) (parsedItems N pre), ?_,
    fun f hf => field_infix_error_text rl cause f hf, cause_suffix_error_text rl cause,
    parseRawLines_all_ok N ⟨pre, init⟩ hpre, ?_⟩
  · rw [parseRawLines_first_error N pre post rl cause init hpre hrl, parse_error_text]
  · rw [totalLineItems_groupItems, length_parsedItems N pre hpre]

/-- Witness of C4 on the sample input whose second data row has the order
identifier `abc`: the error text is
"failed to parse line [[abc Bob Ticket B]]: invalid order id: abc". -/
theorem C4_stops_at_first_failing_row_witness :
    (∀ r ∈ [["100", "Jane Doe", "Ticket A"]], ∃ li, sampleNewLineItem r = .ok li) ∧
    sampleNewLineItem ["abc", "Bob", "Ticket B"] = .error "invalid order id: abc" ∧
    (⟨[["100", "Jane Doe", "Ticket A"], ["abc", "Bob", "Ticket B"], ["7", "Bob", "Ticket A"]],
        none⟩ : LineItemReconReport).parseRawLines sampleNewLineItem
      = .ret (⟨[["100", "Jane Doe", "Ticket A"], ["abc", "Bob", "Ticket B"],
            ["7", "Bob", "Ticket A"]],
          some [(100, ⟨[⟨100, "Jane Doe", "Ticket A"⟩]⟩)]⟩,
          some "failed to parse line [[abc Bob Ticket B]]: invalid order id: abc") ∧
    "failed to parse line [[" ++ " ".intercalate ["abc", "Bob", "Ticket B"] ++ "]]: "
        ++ "invalid order id: abc"
      = "failed to parse line [[abc Bob Ticket B]]: invalid order id: abc" ∧
    ∃ orders1 : GoMap Int Order,
      (⟨[["100", "Jane Doe", "Ticket A"]] ++ ["abc", "Bob", "Ticket B"]
          :: [["7", "Bob", "Ticket A"]], none⟩ : LineItemReconReport).parseRawLines
          sampleNewLineItem
        = .ret (⟨[["100", "Jane Doe", "Ticket A"]] ++ ["abc", "Bob", "Ticket B"]
              :: [["7", "Bob", "Ticket A"]], some orders1⟩,
            some ("failed to parse line [[" ++ " ".intercalate ["abc", "Bob", "Ticket B"]
              ++ "]]: " ++ "invalid order id: abc")) ∧
      (∀ f ∈ ["abc", "Bob", "Ticket B"],
        f.data <:+: ("failed to parse line [[" ++ " ".intercalate ["abc", "Bob", "Ticket B"]
          ++ "]]: " ++ "invalid order id: abc").data) ∧
      "invalid order id: abc".data <:+ ("failed to parse line [["
          ++ " ".intercalate ["abc", "Bob", "Ticket B"] ++ "]]: "
          ++ "invalid order id: abc").data ∧
      (⟨[["100", "Jane Doe", "Ticket A"]], none⟩ : LineItemReconReport).parseRawLines
          sampleNewLineItem
        = .ret (⟨[["100", "Jane Doe", "Ticket A"]], some orders1⟩, none) ∧
      totalLineItems orders1
        = totalLineItems (LineItemReconReport.orders ⟨[["100", "Jane Doe", "Ticket A"]], none⟩)
          + [["100", "Jane Doe", "Ticket A"]].length :=
  ⟨fun r h => by
      rw [List.mem_singleton] at h
      subst h
      exact ⟨_, rfl⟩,
    rfl, rfl, by decide,
    C4_stops_at_first_failing_row sampleNewLineItem [["100", "Jane Doe", "Ticket A"]]
      [["7", "Bob", "Ticket A"]] ["abc", "Bob", "Ticket B"] "invalid order id: abc" none
      (fun r h => by
        rw [List.mem_singleton] at h
        subst h
        exact ⟨_, rfl⟩)
      rfl⟩

/-- C5, counterexample: `parseRawLines` on the rows `100,…` and `abc,…` returns
an error, and the receiver's Orders map, empty before the call, then holds the
Order 100 with the LineItem of the first row. -/
theorem C5_counterexample_orders_retained :
    ¬ ∀ (N : List String → Except String LineItem) (l l1 : LineItemReconReport) (err : String),
      l.parseRawLines N = .ret (l1, some err) → l1.orders = l.orders := by
  intro h
  have h1 := h sampleNewLineItem ⟨sampleBadLines.tail, none⟩
    ⟨sampleBadLines.tail, some [(100, ⟨[⟨100, "Jane Doe", "Ticket A"⟩]⟩)]⟩
    "failed to parse line [[abc Bob Ticket B]]: invalid order id: abc" rfl
  revert h1
  decide

/-- C5, amended: whenever `parseRawLines` returns an error, the rows split at a
first row that `NewLineItem` rejects, and the receiver's Orders map holds what
it held before the call together with the LineItems of the rows before that
row, and nothing of the failing row or of later rows; `NewLineItemReconReport`
does not expose this state: on such rows it returns a nil Report and the
error. -/
theorem C5_orders_after_error {ρ : Type} (N : List String → Except String LineItem)
    (l l1 : LineItemReconReport) (err : String)
    (h : l.parseRawLines N = .ret (l1, some err)) :
    ∃ pre rl post cause, l.rawLines = pre ++ rl :: post ∧
      (∀ r ∈ pre, ∃ li, N r = .ok li) ∧ N rl = .error cause ∧
      l1 = ⟨l.rawLines, some (groupItems l.orders (parsedItems N pre))⟩ ∧
      ∀ (R : ρ → Except String (List (List String))) (input : ρ) (hdr : List String),
        R input = .ok (hdr :: l.rawLines) →
        NewLineItemReconReport R N input = .ret (none, some ("failed to parse lines: " ++ err)) := by
  rcases split_first_error N l.rawLines with hall | ⟨pre, rl, post, cause, hrows, hpre, hrl⟩
  · rw [parseRawLines_all_ok N l hall] at h
    cases h
  · obtain ⟨rawLines, init⟩ := l
    simp only at hrows
    subst hrows
    rw [parseRawLines_first_error N pre post rl cause init hpre hrl] at h
    simp only [GoResult.ret.injEq, Prod.mk.injEq, Option.some.injEq] at h
    obtain ⟨h1, h2⟩ := h
    refine ⟨pre, rl, post, cause, rfl, hpre, hrl, h1.symm, ?_⟩
    intro R input hdr hR
    rw [NewLineItemReconReport_row_error R N input hdr rl pre post cause hR hpre hrl, h2]

/-- Witness of C5 (amended) on the sample input whose second data row has the
order identifier `abc`. -/
theorem C5_orders_after_error_witness :
    (⟨sampleBadLines.tail, none⟩ : LineItemReconReport).parseRawLines sampleNewLineItem
      = .ret (⟨sampleBadLines.tail, some [(100, ⟨[⟨100, "Jane Doe", "Ticket A"⟩]⟩)]⟩,
          some "failed to parse line [[abc Bob Ticket B]]: invalid order id: abc") ∧
    ∃ pre rl post cause, sampleBadLines.tail = pre ++ rl :: post ∧
      (∀ r ∈ pre, ∃ li, sampleNewLineItem r = .ok li) ∧ sampleNewLineItem rl = .error cause ∧
      (⟨sampleBadLines.tail, some [(100, ⟨[⟨100, "Jane Doe", "Ticket A"⟩]⟩)]⟩
          : LineItemReconReport)
        = ⟨sampleBadLines.tail, some (groupItems [] (parsedItems sampleNewLineItem pre))⟩ ∧
      ∀ (R : Except String (List (List String)) → Except String (List (List String)))
        (input : Except String (List (List String))) (hdr : List String),
        R input = .ok (hdr :: sampleBadLines.tail) →
        NewLineItemReconReport R sampleNewLineItem input
          = .ret (none, some ("failed to parse lines: "
              ++ "failed to parse line [[abc Bob Ticket B]]: invalid order id: abc")) :=
  ⟨rfl, C5_orders_after_error sampleNewLineItem ⟨sampleBadLines.tail, none⟩
    ⟨sampleBadLines.tail, some [(100, ⟨[⟨100, "Jane Doe", "Ticket A"⟩]⟩)]⟩
    "failed to parse line [[abc Bob Ticket B]]: invalid order id: abc" rfl⟩

/-- C6 (report items): for every successfully constructed Report and every
iteration order of the maps, `GetItems` returns a list without duplicates that
contains the item name of the LineItem of every data row of the input. -/
theorem C6_GetItems_complete {ρ : Type} (R : ρ → Except String (List (List String)))
    (N : List String → Except String LineItem) (input : ρ) (rep : LineItemReconReport)
    (sOrders sSet : Schedule)
    (hsucc : NewLineItemReconReport R N input = .ret (some rep, none)) :
    (rep.GetItems sOrders sSet).Nodup ∧
    ∃ hdr rows, R input = .ok (hdr :: rows) ∧
      ∀ rl ∈ rows, ∃ li, N rl = .ok li ∧ li.Item ∈ rep.GetItems sOrders sSet := by
  refine ⟨nodup_GetItems sOrders sSet rep, ?_⟩
  obtain ⟨hdr, rows, hR, hall, hrep⟩ := NewLineItemReconReport_success R N input rep hsucc
  refine ⟨hdr, rows, hR, ?_⟩
  intro rl hrl
  obtain ⟨li, hli⟩ := hall rl hrl
  refine ⟨li, hli, ?_⟩
  obtain ⟨kv, hkv, -, hin⟩ :=
    held_of_mem (parsedItems N rows) li ((mem_parsedItems N rows li).2 ⟨rl, hrl, hli⟩)
  rw [mem_GetItems]
  exact ⟨kv, by rw [hrep]; exact hkv, mem_GetItems_of_mem kv.2 li hin⟩

/-- Witness of C6 on the sample input. -/
theorem C6_GetItems_complete_witness :
    NewLineItemReconReport sampleReadAll sampleNewLineItem (.ok sampleLines)
      = .ret (some sampleReport, none) ∧
    (sampleReport.GetItems [1] [2]).Nodup ∧
    ∃ hdr rows, sampleReadAll (.ok sampleLines) = .ok (hdr :: rows) ∧
      ∀ rl ∈ rows, ∃ li, sampleNewLineItem rl = .ok li ∧
        li.Item ∈ sampleReport.GetItems [1] [2] :=
  ⟨rfl, C6_GetItems_complete sampleReadAll sampleNewLineItem (.ok sampleLines) sampleReport
    [1] [2] rfl⟩

/-- C7, counterexample: on two rows of order 100 naming the customers
`Jane Doe` and `John Roe`, construction succeeds with a single Order, so that,
whatever name `Order.GetCustomer` reports and under any iteration order, the
result of `GetCustomers` has at most one member and does not contain both
customer names of the data rows: it is `Jane Doe` alone when the first
LineItem's customer is reported, `John Roe` alone when the last one is. -/
theorem C7_counterexample_mixed_customers :
    ∃ rep, NewLineItemReconReport sampleReadAll sampleNewLineItem (.ok sampleMixedLines)
        = .ret (some rep, none) ∧
      ["100", "Jane Doe", "Ticket A"] ∈ sampleMixedLines.tail ∧
      sampleNewLineItem ["100", "Jane Doe", "Ticket A"] = .ok ⟨100, "Jane Doe", "Ticket A"⟩ ∧
      ["100", "John Roe", "Ticket B"] ∈ sampleMixedLines.tail ∧
      sampleNewLineItem ["100", "John Roe", "Ticket B"] = .ok ⟨100, "John Roe", "Ticket B"⟩ ∧
      rep.GetCustomers firstSeen [] [] = ["Jane Doe"] ∧
      rep.GetCustomers lastSeen [] [] = ["John Roe"] ∧
      ∀ (pick : CustomerPolicy) (sOrders sSet : Schedule),
        (rep.GetCustomers pick sOrders sSet).length ≤ 1 ∧
        ¬ ("Jane Doe" ∈ rep.GetCustomers pick sOrders sSet ∧
          "John Roe" ∈ rep.GetCustomers pick sOrders sSet) := by
  refine ⟨⟨sampleMixedLines.tail,
    some [(100, ⟨[⟨100, "Jane Doe", "Ticket A"⟩, ⟨100, "John Roe", "Ticket B"⟩]⟩)]⟩,
    rfl, by decide, rfl, by decide, rfl, by decide, by decide, ?_⟩
  intro pick sOrders sSet
  have hlen := length_GetCustomers_le pick sOrders sSet
    ⟨sampleMixedLines.tail,
      some [(100, ⟨[⟨100, "Jane Doe", "Ticket A"⟩, ⟨100, "John Roe", "Ticket B"⟩]⟩)]⟩
  refine ⟨hlen, ?_⟩
  rintro ⟨h1, h2⟩
  rw [mem_GetCustomers] at h1 h2
  obtain ⟨kv1, hkv1, hc1⟩ := h1
  obtain ⟨kv2, hkv2, hc2⟩ := h2
  simp only [LineItemReconReport.orders, List.mem_singleton] at hkv1 hkv2
  subst hkv1
  subst hkv2
  rw [hc1] at hc2
  revert hc2
  decide

/-- C7, amended (report customers): for every successfully constructed Report,
every policy of `Order.GetCustomer` and every iteration order of the maps,
`GetCustomers` returns a list without duplicates that holds one name per Order,
the name `Order.GetCustomer` reports for the customer names of the data rows of
that order identifier, hence at most as many names as Orders; when the data
rows of one order identifier all carry the same customer name and
`Order.GetCustomer` reports that shared name, it contains the customer name of
every data row. -/
theorem C7_GetCustomers_one_per_order {ρ : Type} (R : ρ → Except String (List (List String)))
    (N : List String → Except String LineItem) (input : ρ) (rep : LineItemReconReport)
    (pick : CustomerPolicy) (sOrders sSet : Schedule)
    (hsucc : NewLineItemReconReport R N input = .ret (some rep, none)) :
    (rep.GetCustomers pick sOrders sSet).Nodup ∧
    (rep.GetCustomers pick sOrders sSet).length ≤ rep.orders.length ∧
    ∃ hdr rows, R input = .ok (hdr :: rows) ∧
      (∀ c, c ∈ rep.GetCustomers pick sOrders sSet ↔
        ∃ k, (∃ li ∈ parsedItems N rows, li.OrderID = k) ∧
          pick (((parsedItems N rows).filter (fun x => x.OrderID = k)).map LineItem.Customer)
            = c) ∧
      ((∀ cs c, cs ≠ [] → (∀ x ∈ cs, x = c) → pick cs = c) →
        (∀ a ∈ parsedItems N rows, ∀ b ∈ parsedItems N rows,
          a.OrderID = b.OrderID → a.Customer = b.Customer) →
        ∀ rl ∈ rows, ∃ li, N rl = .ok li ∧
          li.Customer ∈ rep.GetCustomers pick sOrders sSet) := by
  refine ⟨nodup_GetCustomers pick sOrders sSet rep,
    length_GetCustomers_le pick sOrders sSet rep, ?_⟩
  obtain ⟨hdr, rows, hR, hall, hrep⟩ := NewLineItemReconReport_success R N input rep hsucc
  subst hrep
  refine ⟨hdr, rows, hR, fun c => mem_GetCustomers_constructed pick sOrders sSet rows _ c, ?_⟩
  intro hpick hom rl hrl
  obtain ⟨li, hli⟩ := hall rl hrl
  refine ⟨li, hli, ?_⟩
  have hmem : li ∈ parsedItems N rows := (mem_parsedItems N rows li).2 ⟨rl, hrl, hli⟩
  rw [mem_GetCustomers_constructed]
  refine ⟨li.OrderID, ⟨li, hmem, rfl⟩, ?_⟩
  have hin : li ∈ (parsedItems N rows).filter (fun x => x.OrderID = li.OrderID) := by
    simp [List.mem_filter, hmem]
  apply hpick
  · intro h0
    have hc : li.Customer ∈
        ((parsedItems N rows).filter (fun x => x.OrderID = li.OrderID)).map LineItem.Customer :=
      List.mem_map.2 ⟨li, hin, rfl⟩
    rw [h0] at hc
    cases hc
  · intro x hx
    obtain ⟨b, hb, hbx⟩ := List.mem_map.1 hx
    rw [← hbx]
    have hb2 := List.mem_filter.1 hb
    exact hom b hb2.1 li hmem (of_decide_eq_true hb2.2)

/-- Witness of C7 (amended) on the sample input, with the policy that reports
the customer of an Order's first LineItem: the rows of each order identifier
agree on the customer, and every row's customer name is in the result. -/
theorem C7_GetCustomers_one_per_order_witness :
    NewLineItemReconReport sampleReadAll sampleNewLineItem (.ok sampleLines)
      = .ret (some sampleReport, none) ∧
    sampleReport.GetCustomers firstSeen [1] [2] = ["Bob", "Jane Doe"] ∧
    (sampleReport.GetCustomers firstSeen [1] [2]).Nodup ∧
    (sampleReport.GetCustomers firstSeen [1] [2]).length ≤ sampleReport.orders.length ∧
    (∀ c, c ∈ sampleReport.GetCustomers firstSeen [1] [2] ↔
      ∃ k, (∃ li ∈ parsedItems sampleNewLineItem sampleLines.tail, li.OrderID = k) ∧
        firstSeen (((parsedItems sampleNewLineItem sampleLines.tail).filter
          (fun x => x.OrderID = k)).map LineItem.Customer) = c) ∧
    ∀ rl ∈ sampleLines.tail, ∃ li, sampleNewLineItem rl = .ok li ∧
      li.Customer ∈ sampleReport.GetCustomers firstSeen [1] [2] := by
  obtain ⟨hnd, hlen, hdr, rows, hR, hchar, himp⟩ :=
    C7_GetCustomers_one_per_order sampleReadAll sampleNewLineItem (.ok sampleLines)
      sampleReport firstSeen [1] [2] rfl
  have hrows : rows = sampleLines.tail := by
    simp only [sampleReadAll, sampleLines, Except.ok.injEq, List.cons.injEq] at hR
    rw [← hR.2]
    rfl
  subst hrows
  exact ⟨rfl, by decide, hnd, hlen, hchar, himp firstSeen_shared (by decide)⟩

/-- C8 (union of the Orders' items): for every Orders map and every iteration
order, a name is in the result of the report's `GetItems` if and only if it is
in `GetItems` of some Order of the map, and the result has no duplicates. -/
theorem C8_GetItems_is_union (l : LineItemReconReport) (sOrders sSet : Schedule) :
    (∀ x, x ∈ l.GetItems sOrders sSet ↔ ∃ kv ∈ l.orders, x ∈ kv.2.GetItems) ∧
    (l.GetItems sOrders sSet).Nodup :=
  ⟨mem_GetItems sOrders sSet l, nodup_GetItems sOrders sSet l⟩

/-- C9 (distinct customers of the Orders): for every Orders map, every policy
of `Order.GetCustomer` and every iteration order, a name is in the result of
`GetCustomers` if and only if it is `GetCustomer` of some Order of the map, the
result has no duplicates, and it is no longer than the number of Orders. -/
theorem C9_GetCustomers_is_distinct (pick : CustomerPolicy) (l : LineItemReconReport)
    (sOrders sSet : Schedule) :
    (∀ x, x ∈ l.GetCustomers pick sOrders sSet ↔ ∃ kv ∈ l.orders, kv.2.GetCustomer pick = x) ∧
    (l.GetCustomers pick sOrders sSet).Nodup ∧
    (l.GetCustomers pick sOrders sSet).length ≤ l.orders.length :=
  ⟨mem_GetCustomers pick sOrders sSet l, nodup_GetCustomers pick sOrders sSet l,
    length_GetCustomers_le pick sOrders sSet l⟩

/-- C10 (keys of the Orders map): in a successfully constructed Report the keys
of the Orders map are pairwise distinct and are exactly the order identifiers
of the data rows, and the Order stored under a key holds all the LineItems of
that identifier, in input order: later rows of an identifier are added to the
Order created by its first row. -/
theorem C10_order_keys {ρ : Type} (R : ρ → Except String (List (List String)))
    (N : List String → Except String LineItem) (input : ρ) (rep : LineItemReconReport)
    (hsucc : NewLineItemReconReport R N input = .ret (some rep, none)) :
    ∃ hdr rows orders, R input = .ok (hdr :: rows) ∧ rep.Orders = some orders ∧
      orders.keys.Nodup ∧
      (∀ k, k ∈ orders.keys ↔ ∃ rl ∈ rows, ∃ li, N rl = .ok li ∧ li.OrderID = k) ∧
      (∀ k ∈ orders.keys,
        orders.get? k = some ⟨(parsedItems N rows).filter (fun li => li.OrderID = k)⟩) := by
  obtain ⟨hdr, rows, hR, hall, hrep⟩ := NewLineItemReconReport_success R N input rep hsucc
  subst hrep
  refine ⟨hdr, rows, _, hR, rfl, nodup_keys_groupItems [] _ (by simp [GoMap.keys]), ?_, ?_⟩
  · intro k
    rw [mem_keys_groupItems_nil]
    constructor
    · rintro ⟨li, hli, hk⟩
      obtain ⟨rl, hrl, hN⟩ := (mem_parsedItems N rows li).1 hli
      exact ⟨rl, hrl, li, hN, hk⟩
    · rintro ⟨rl, hrl, li, hN, hk⟩
      exact ⟨li, (mem_parsedItems N rows li).2 ⟨rl, hrl, hN⟩, hk⟩
  · intro k hk
    rw [get?_groupItems_nil]
    split
    · rename_i hf
      obtain ⟨li, hli, hid⟩ := (mem_keys_groupItems_nil _ k).1 hk
      have : li ∈ (parsedItems N rows).filter (fun li => li.OrderID = k) := by
        simp [List.mem_filter, hli, hid]
      rw [hf] at this
      simp at this
    · rfl

/-- Witness of C10: a header and two rows of order 100 yield exactly one Order,
keyed 100, holding both LineItems. -/
theorem C10_order_keys_witness :
    NewLineItemReconReport sampleReadAll sampleNewLineItem
        (.ok [["Order", "Customer", "Item"], ["100", "Jane Doe", "Ticket A"],
          ["100", "Jane Doe", "Ticket B"]])
      = .ret (some ⟨[["100", "Jane Doe", "Ticket A"], ["100", "Jane Doe", "Ticket B"]],
          some [(100, ⟨[⟨100, "Jane Doe", "Ticket A"⟩, ⟨100, "Jane Doe", "Ticket B"⟩]⟩)]⟩,
          none) ∧
    ∃ hdr rows orders,
      sampleReadAll (.ok [["Order", "Customer", "Item"], ["100", "Jane Doe", "Ticket A"],
          ["100", "Jane Doe", "Ticket B"]]) = .ok (hdr :: rows) ∧
      (some [(100, ⟨[⟨100, "Jane Doe", "Ticket A"⟩, ⟨100, "Jane Doe", "Ticket B"⟩]⟩)]
        : Option (GoMap Int Order)) = some orders ∧
      orders.keys.Nodup ∧
      (∀ k, k ∈ orders.keys ↔
        ∃ rl ∈ rows, ∃ li, sampleNewLineItem rl = .ok li ∧ li.OrderID = k) ∧
      (∀ k ∈ orders.keys, orders.get? k
        = some ⟨(parsedItems sampleNewLineItem rows).filter (fun li => li.OrderID = k)⟩) :=
  ⟨rfl, C10_order_keys sampleReadAll sampleNewLineItem
    (.ok [["Order", "Customer", "Item"], ["100", "Jane Doe", "Ticket A"],
      ["100", "Jane Doe", "Ticket B"]])
    ⟨[["100", "Jane Doe", "Ticket A"], ["100", "Jane Doe", "Ticket B"]],
      some [(100, ⟨[⟨100, "Jane Doe", "Ticket A"⟩, ⟨100, "Jane Doe", "Ticket B"⟩]⟩)]⟩ rfl⟩

/-! ## Lemmas on the header row, on empty maps and on the Orders of a Report -/

theorem readInput_cons {ρ : Type} (R : ρ → Except String (List (List String)))
    (l : LineItemReconReport) (input : ρ) (hdr : List String) (rows : List (List String))
    (hR : R input = .ok (hdr :: rows)) :
    l.readInput R input = .ret (⟨rows, l.Orders⟩, none) := by
  simp [LineItemReconReport.readInput, hR]

theorem readInput_no_rows {ρ : Type} (R : ρ → Except String (List (List String)))
    (l : LineItemReconReport) (input : ρ) (hR : R input = .ok []) :
    l.readInput R input = .panic "runtime error: slice bounds out of range [1:0]" := by
  simp [LineItemReconReport.readInput, hR]

theorem NewLineItemReconReport_cons {ρ : Type} (R : ρ → Except String (List (List String)))
    (N : List String → Except String LineItem) (input : ρ) (hdr : List String)
    (rows : List (List String)) (hR : R input = .ok (hdr :: rows)) :
    NewLineItemReconReport R N input =
      match (⟨rows, none⟩ : LineItemReconReport).parseRawLines N with
      | .panic msg => .panic msg
      | .ret (_, some err) => .ret (none, some ("failed to parse lines: " ++ err))
      | .ret (lirReport2, none) => .ret (some lirReport2, none) := by
  simp [NewLineItemReconReport, LineItemReconReport.readInput, hR]

theorem mem_orders_constructed (N : List String → Except String LineItem)
    (rows : List (List String)) (kv : Int × Order)
    (h : kv ∈ (⟨rows, some (groupItems [] (parsedItems N rows))⟩ : LineItemReconReport).orders) :
    kv.2.lineItems ≠ [] ∧ ∀ li ∈ kv.2.lineItems, li.OrderID = kv.1 := by
  obtain ⟨k, o⟩ := kv
  obtain ⟨ho, hne⟩ := (mem_groupItems_nil _ k o).1 h
  subst ho
  refine ⟨hne, ?_⟩
  intro li hli
  exact of_decide_eq_true (List.mem_filter.1 hli).2

/-! ## The claims, continued -/

/-- C11 (header row): for every tokenizer output `hdr :: rows`, `readInput`
returns no error and sets `rawLines` to `rows`, unchanged and in order,
whatever `hdr` holds; the result of `NewLineItemReconReport` is that of parsing
`rows` and is the same for every other header row. -/
theorem C11_readInput_drops_header {ρ : Type} (R : ρ → Except String (List (List String)))
    (l : LineItemReconReport) (input : ρ) (hdr : List String) (rows : List (List String))
    (hR : R input = .ok (hdr :: rows)) :
    l.readInput R input = .ret (⟨rows, l.Orders⟩, none) ∧
    ∀ (N : List String → Except String LineItem)
      (R2 : ρ → Except String (List (List String))) (input2 : ρ) (hdr2 : List String),
      R2 input2 = .ok (hdr2 :: rows) →
      NewLineItemReconReport R N input = NewLineItemReconReport R2 N input2 := by
  refine ⟨readInput_cons R l input hdr rows hR, ?_⟩
  intro N R2 input2 hdr2 hR2
  rw [NewLineItemReconReport_cons R N input hdr rows hR,
    NewLineItemReconReport_cons R2 N input2 hdr2 rows hR2]

/-- Witness of C11 on the sample input. -/
theorem C11_readInput_drops_header_witness :
    sampleReadAll (.ok sampleLines) = .ok (["Order", "Customer", "Item"] :: sampleLines.tail) ∧
    (LineItemReconReport.readInput sampleReadAll ⟨[], none⟩ (.ok sampleLines)
        = .ret (⟨sampleLines.tail, none⟩, none) ∧
      ∀ (N : List String → Except String LineItem)
        (R2 : Except String (List (List String)) → Except String (List (List String)))
        (input2 : Except String (List (List String))) (hdr2 : List String),
        R2 input2 = .ok (hdr2 :: sampleLines.tail) →
        NewLineItemReconReport sampleReadAll N (.ok sampleLines)
          = NewLineItemReconReport R2 N input2) :=
  ⟨rfl, C11_readInput_drops_header sampleReadAll ⟨[], none⟩ (.ok sampleLines)
    ["Order", "Customer", "Item"] sampleLines.tail rfl⟩

/-- C12 (header only): when the tokenizer yields the header row alone,
`NewLineItemReconReport` returns a Report whose Orders map is non-nil and has
no entry, and `GetItems` and `GetCustomers` return empty lists. -/
theorem C12_header_only {ρ : Type} (R : ρ → Except String (List (List String)))
    (N : List String → Except String LineItem) (input : ρ) (hdr : List String)
    (hR : R input = .ok [hdr]) :
    ∃ rep, NewLineItemReconReport R N input = .ret (some rep, none) ∧
      rep.Orders = some [] ∧
      ∀ (pick : CustomerPolicy) (sOrders sSet : Schedule),
        rep.GetItems sOrders sSet = [] ∧ rep.GetCustomers pick sOrders sSet = [] := by
  refine ⟨⟨[], some []⟩, ?_, rfl, ?_⟩
  · rw [NewLineItemReconReport_rows_ok R N input hdr [] hR (by simp)]
    rfl
  · intro pick sOrders sSet
    constructor
    · apply List.eq_nil_iff_forall_not_mem.2
      intro x hx
      rw [mem_GetItems] at hx
      obtain ⟨kv, hkv, -⟩ := hx
      simp [LineItemReconReport.orders] at hkv
    · apply List.eq_nil_iff_forall_not_mem.2
      intro x hx
      rw [mem_GetCustomers] at hx
      obtain ⟨kv, hkv, -⟩ := hx
      simp [LineItemReconReport.orders] at hkv

/-- Witness of C12 on an input that holds the header row only. -/
theorem C12_header_only_witness :
    sampleReadAll (.ok [["Order", "Customer", "Item"]]) = .ok [["Order", "Customer", "Item"]] ∧
    ∃ rep, NewLineItemReconReport sampleReadAll sampleNewLineItem
        (.ok [["Order", "Customer", "Item"]]) = .ret (some rep, none) ∧
      rep.Orders = some [] ∧
      ∀ (pick : CustomerPolicy) (sOrders sSet : Schedule),
        rep.GetItems sOrders sSet = [] ∧ rep.GetCustomers pick sOrders sSet = [] :=
  ⟨rfl, C12_header_only sampleReadAll sampleNewLineItem (.ok [["Order", "Customer", "Item"]])
    ["Order", "Customer", "Item"] rfl⟩

/-- C13 (Order invariant): every Order of the Orders map of a Report returned
by `NewLineItemReconReport` holds at least one LineItem, and the order
identifier of every LineItem it holds is the key of the Order. -/
theorem C13_order_invariant {ρ : Type} (R : ρ → Except String (List (List String)))
    (N : List String → Except String LineItem) (input : ρ) (rep : LineItemReconReport)
    (hsucc : NewLineItemReconReport R N input = .ret (some rep, none)) :
    ∀ kv ∈ rep.orders,
      kv.2.lineItems ≠ [] ∧ ∀ li ∈ kv.2.lineItems, li.OrderID = kv.1 := by
  obtain ⟨hdr, rows, -, -, hrep⟩ := NewLineItemReconReport_success R N input rep hsucc
  subst hrep
  intro kv hkv
  exact mem_orders_constructed N rows kv hkv

/-- Witness of C13 on the sample input. -/
theorem C13_order_invariant_witness :
    NewLineItemReconReport sampleReadAll sampleNewLineItem (.ok sampleLines)
      = .ret (some sampleReport, none) ∧
    ∀ kv ∈ sampleReport.orders,
      kv.2.lineItems ≠ [] ∧ ∀ li ∈ kv.2.lineItems, li.OrderID = kv.1 :=
  ⟨rfl, C13_order_invariant sampleReadAll sampleNewLineItem (.ok sampleLines) sampleReport rfl⟩

/-! ## Lemmas on the independence of the iteration order and of the row order -/

theorem GetItems_perm_of_orders (l1 l2 : LineItemReconReport) (s1 s2 t1 t2 : Schedule)
    (h : ∀ x, (∃ kv ∈ l1.orders, x ∈ kv.2.GetItems) ↔ ∃ kv ∈ l2.orders, x ∈ kv.2.GetItems) :
    (l1.GetItems s1 s2).Perm (l2.GetItems t1 t2) := by
  rw [List.perm_ext_iff_of_nodup (nodup_GetItems s1 s2 l1) (nodup_GetItems t1 t2 l2)]
  intro x
  rw [mem_GetItems, mem_GetItems]
  exact h x

theorem GetCustomers_perm_of_orders (pick : CustomerPolicy) (l1 l2 : LineItemReconReport) (s1 s2 t1 t2 : Schedule)
    (h : ∀ x, (∃ kv ∈ l1.orders, kv.2.GetCustomer pick = x) ↔ ∃ kv ∈ l2.orders, kv.2.GetCustomer pick = x) :
    (l1.GetCustomers pick s1 s2).Perm (l2.GetCustomers pick t1 t2) := by
  rw [List.perm_ext_iff_of_nodup (nodup_GetCustomers pick s1 s2 l1) (nodup_GetCustomers pick t1 t2 l2)]
  intro x
  rw [mem_GetCustomers, mem_GetCustomers]
  exact h x

theorem mem_Order_GetItems (o : Order) (x : String) :
    x ∈ o.GetItems ↔ ∃ li ∈ o.lineItems, li.Item = x := by
  unfold Order.GetItems
  rw [List.mem_dedup, List.mem_map]

theorem get?_groupItems_perm (orders : GoMap Int Order) (lis lis2 : List LineItem)
    (hperm : lis.Perm lis2) (k : Int) (o : Order)
    (h : (groupItems orders lis).get? k = some o) :
    ∃ o2, (groupItems orders lis2).get? k = some o2 ∧ o.lineItems.Perm o2.lineItems := by
  have hf : (lis.filter (fun li => li.OrderID = k)).Perm (lis2.filter (fun li => li.OrderID = k)) :=
    hperm.filter _
  rw [get?_groupItems] at h
  rw [get?_groupItems]
  by_cases h0 : lis.filter (fun li => li.OrderID = k) = []
  · have h2 : lis2.filter (fun li => li.OrderID = k) = [] := by
      rw [h0] at hf
      exact List.Perm.eq_nil hf.symm
    rw [if_pos h0] at h
    rw [if_pos h2]
    exact ⟨o, h, List.Perm.refl _⟩
  · have h2 : lis2.filter (fun li => li.OrderID = k) ≠ [] := by
      intro h2
      rw [h2] at hf
      exact h0 (List.Perm.eq_nil hf)
    rw [if_neg h0] at h
    rw [if_neg h2]
    simp only [Option.some.injEq] at h
    subst h
    exact ⟨_, rfl, List.Perm.append_left _ hf⟩

theorem mem_keys_iff_get? {κ ν : Type} [DecidableEq κ] (m : GoMap κ ν) (k : κ) :
    k ∈ m.keys ↔ ∃ v, m.get? k = some v := by
  have h := GoMap.get?_eq_none_iff m k
  cases hg : m.get? k with
  | none =>
    rw [hg] at h
    simp [h.1 rfl]
  | some v =>
    rw [hg] at h
    have hk : k ∈ m.keys := by
      by_contra hc
      have := h.2 hc
      cases this
    simp [hk]

theorem items_of_groupItems_perm (orders : GoMap Int Order) (lis lis2 : List LineItem)
    (hperm : lis.Perm lis2) (hnd : orders.keys.Nodup) (x : String)
    (h : ∃ kv ∈ groupItems orders lis, x ∈ kv.2.GetItems) :
    ∃ kv ∈ groupItems orders lis2, x ∈ kv.2.GetItems := by
  obtain ⟨⟨k, o⟩, hkv, hx⟩ := h
  have hg := GoMap.get?_of_mem (nodup_keys_groupItems orders lis hnd) hkv
  obtain ⟨o2, hg2, hp⟩ := get?_groupItems_perm orders lis lis2 hperm k o hg
  refine ⟨(k, o2), GoMap.mem_of_get? hg2, ?_⟩
  rw [mem_Order_GetItems] at hx ⊢
  obtain ⟨li, hli, hitem⟩ := hx
  exact ⟨li, hp.mem_iff.1 hli, hitem⟩

theorem parsedItems_perm (N : List String → Except String LineItem)
    (rows rows2 : List (List String)) (hperm : rows.Perm rows2) :
    (parsedItems N rows).Perm (parsedItems N rows2) :=
  hperm.filterMap _

/-! ## The claims, continued -/

/-- C14 (determinism of the aggregate outputs): two Reports constructed from
the same input have the same Order keys, and `GetItems` and `GetCustomers`
return lists with the same members, each of them once, on both, whatever the
iteration orders of the Orders map and of the string sets in the two runs, for
every policy of `Order.GetCustomer`. -/
theorem C14_deterministic_aggregates {ρ : Type} (R : ρ → Except String (List (List String)))
    (N : List String → Except String LineItem) (input : ρ) (rep1 rep2 : LineItemReconReport)
    (pick : CustomerPolicy) (s1 s2 t1 t2 : Schedule)
    (h1 : NewLineItemReconReport R N input = .ret (some rep1, none))
    (h2 : NewLineItemReconReport R N input = .ret (some rep2, none)) :
    (∀ k, k ∈ rep1.orders.keys ↔ k ∈ rep2.orders.keys) ∧
    (rep1.GetItems s1 s2).Perm (rep2.GetItems t1 t2) ∧
    (∀ x, x ∈ rep1.GetItems s1 s2 ↔ x ∈ rep2.GetItems t1 t2) ∧
    (rep1.GetCustomers pick s1 s2).Perm (rep2.GetCustomers pick t1 t2) ∧
    (∀ x, x ∈ rep1.GetCustomers pick s1 s2 ↔ x ∈ rep2.GetCustomers pick t1 t2) := by
  have heq : rep1 = rep2 := by
    rw [h1] at h2
    simpa using h2
  subst heq
  have hi := GetItems_perm_of_orders rep1 rep1 s1 s2 t1 t2 (fun _ => Iff.rfl)
  have hc := GetCustomers_perm_of_orders pick rep1 rep1 s1 s2 t1 t2 (fun _ => Iff.rfl)
  exact ⟨fun _ => Iff.rfl, hi, fun _ => hi.mem_iff, hc, fun _ => hc.mem_iff⟩

/-- Witness of C14 on the sample input, under two different pairs of
iteration orders. -/
theorem C14_deterministic_aggregates_witness :
    NewLineItemReconReport sampleReadAll sampleNewLineItem (.ok sampleLines)
      = .ret (some sampleReport, none) ∧
    sampleReport.GetItems [0, 0] [0, 0] = ["Ticket A", "Ticket B"] ∧
    sampleReport.GetItems [1] [1] = ["Ticket B", "Ticket A"] ∧
    sampleReport.GetCustomers firstSeen [0, 0] [0, 0] = ["Jane Doe", "Bob"] ∧
    sampleReport.GetCustomers firstSeen [1] [1] = ["Jane Doe", "Bob"] ∧
    (∀ k, k ∈ sampleReport.orders.keys ↔ k ∈ sampleReport.orders.keys) ∧
    (sampleReport.GetItems [0, 0] [0, 0]).Perm (sampleReport.GetItems [1] [1]) ∧
    (∀ x, x ∈ sampleReport.GetItems [0, 0] [0, 0] ↔ x ∈ sampleReport.GetItems [1] [1]) ∧
    (sampleReport.GetCustomers firstSeen [0, 0] [0, 0]).Perm
      (sampleReport.GetCustomers firstSeen [1] [1]) ∧
    (∀ x, x ∈ sampleReport.GetCustomers firstSeen [0, 0] [0, 0]
      ↔ x ∈ sampleReport.GetCustomers firstSeen [1] [1]) :=
  ⟨rfl, by decide, by decide, by decide, by decide,
    C14_deterministic_aggregates sampleReadAll sampleNewLineItem (.ok sampleLines)
      sampleReport sampleReport firstSeen [0, 0] [0, 0] [1] [1] rfl rfl⟩

/-- C15 (empty tokenizer output): when the tokenizer succeeds with zero rows,
`readInput` panics on the slice `lines[1:]` and `NewLineItemReconReport`
returns neither a Report nor an error; when it succeeds with one row or more,
`readInput` returns a nil error and keeps the rows after the first. -/
theorem C15_readInput_needs_a_row {ρ : Type} (R : ρ → Except String (List (List String)))
    (N : List String → Except String LineItem) (l : LineItemReconReport) (input : ρ)
    (lines : List (List String)) (hR : R input = .ok lines) :
    (lines = [] →
      l.readInput R input = .panic "runtime error: slice bounds out of range [1:0]" ∧
      NewLineItemReconReport R N input
        = .panic "runtime error: slice bounds out of range [1:0]" ∧
      ¬ ∃ rep err, NewLineItemReconReport R N input = .ret (rep, err)) ∧
    (lines ≠ [] → l.readInput R input = .ret (⟨lines.tail, l.Orders⟩, none)) := by
  constructor
  · intro h0
    subst h0
    refine ⟨readInput_no_rows R l input hR, NewLineItemReconReport_no_rows R N input hR, ?_⟩
    rintro ⟨rep, err, h⟩
    rw [NewLineItemReconReport_no_rows R N input hR] at h
    cases h
  · intro hne
    cases lines with
    | nil => exact absurd rfl hne
    | cons hdr rows => exact readInput_cons R l input hdr rows hR

/-- Witness of C15 on an input that tokenizes to zero rows. -/
theorem C15_readInput_needs_a_row_witness :
    sampleReadAll (.ok []) = .ok [] ∧
    LineItemReconReport.readInput sampleReadAll ⟨[], none⟩ (.ok [])
      = .panic "runtime error: slice bounds out of range [1:0]" ∧
    NewLineItemReconReport sampleReadAll sampleNewLineItem (.ok [])
      = .panic "runtime error: slice bounds out of range [1:0]" ∧
    ¬ ∃ rep err, NewLineItemReconReport sampleReadAll sampleNewLineItem (.ok [])
      = .ret (rep, err) :=
  ⟨rfl, (C15_readInput_needs_a_row sampleReadAll sampleNewLineItem ⟨[], none⟩ (.ok []) [] rfl).1
    rfl⟩

/-- C16 (row-order independence): when `NewLineItem` accepts every row and the
keys of the Orders map are distinct at the start, `parseRawLines` on the rows
and on any permutation of them returns without error, and the two Orders maps
have the same keys and hold, under each key, the same LineItems up to order; so
`GetItems` returns lists with the same members, each of them once. -/
theorem C16_row_order_independence (N : List String → Except String LineItem)
    (l : LineItemReconReport) (rows2 : List (List String))
    (hperm : l.rawLines.Perm rows2) (hall : ∀ rl ∈ l.rawLines, ∃ li, N rl = .ok li)
    (hnd : l.orders.keys.Nodup) :
    ∃ orders orders2 : GoMap Int Order,
      l.parseRawLines N = .ret (⟨l.rawLines, some orders⟩, none) ∧
      (⟨rows2, l.Orders⟩ : LineItemReconReport).parseRawLines N
        = .ret (⟨rows2, some orders2⟩, none) ∧
      (∀ k, k ∈ orders.keys ↔ k ∈ orders2.keys) ∧
      (∀ k o, orders.get? k = some o →
        ∃ o2, orders2.get? k = some o2 ∧ o.lineItems.Perm o2.lineItems) ∧
      ∀ s1 s2 t1 t2 : Schedule,
        ((⟨l.rawLines, some orders⟩ : LineItemReconReport).GetItems s1 s2).Perm
          ((⟨rows2, some orders2⟩ : LineItemReconReport).GetItems t1 t2) := by
  have hall2 : ∀ rl ∈ rows2, ∃ li, N rl = .ok li := fun rl h => hall rl (hperm.mem_iff.2 h)
  have hp := parsedItems_perm N l.rawLines rows2 hperm
  refine ⟨groupItems l.orders (parsedItems N l.rawLines),
    groupItems l.orders (parsedItems N rows2),
    parseRawLines_all_ok N l hall, parseRawLines_all_ok N ⟨rows2, l.Orders⟩ hall2, ?_, ?_, ?_⟩
  · intro k
    rw [mem_keys_iff_get?, mem_keys_iff_get?]
    constructor
    · rintro ⟨o, ho⟩
      obtain ⟨o2, ho2, -⟩ := get?_groupItems_perm l.orders _ _ hp k o ho
      exact ⟨o2, ho2⟩
    · rintro ⟨o, ho⟩
      obtain ⟨o2, ho2, -⟩ := get?_groupItems_perm l.orders _ _ hp.symm k o ho
      exact ⟨o2, ho2⟩
  · intro k o ho
    exact get?_groupItems_perm l.orders _ _ hp k o ho
  · intro s1 s2 t1 t2
    apply GetItems_perm_of_orders
    intro x
    exact ⟨items_of_groupItems_perm l.orders _ _ hp hnd x,
      items_of_groupItems_perm l.orders _ _ hp.symm hnd x⟩

/-- Witness of C16 on the sample rows and the same rows in reverse order. -/
theorem C16_row_order_independence_witness :
    (LineItemReconReport.rawLines ⟨sampleLines.tail, none⟩).Perm sampleLines.tail.reverse ∧
    (∀ rl ∈ sampleLines.tail, ∃ li, sampleNewLineItem rl = .ok li) ∧
    (LineItemReconReport.orders ⟨sampleLines.tail, none⟩).keys.Nodup ∧
    ∃ orders orders2 : GoMap Int Order,
      (⟨sampleLines.tail, none⟩ : LineItemReconReport).parseRawLines sampleNewLineItem
        = .ret (⟨sampleLines.tail, some orders⟩, none) ∧
      (⟨sampleLines.tail.reverse, none⟩ : LineItemReconReport).parseRawLines sampleNewLineItem
        = .ret (⟨sampleLines.tail.reverse, some orders2⟩, none) ∧
      (∀ k, k ∈ orders.keys ↔ k ∈ orders2.keys) ∧
      (∀ k o, orders.get? k = some o →
        ∃ o2, orders2.get? k = some o2 ∧ o.lineItems.Perm o2.lineItems) ∧
      ∀ s1 s2 t1 t2 : Schedule,
        ((⟨sampleLines.tail, some orders⟩ : LineItemReconReport).GetItems s1 s2).Perm
          ((⟨sampleLines.tail.reverse, some orders2⟩ : LineItemReconReport).GetItems t1 t2) :=
  ⟨(List.reverse_perm _).symm, sampleLines_parse, List.nodup_nil,
    C16_row_order_independence sampleNewLineItem ⟨sampleLines.tail, none⟩
      sampleLines.tail.reverse (List.reverse_perm _).symm sampleLines_parse List.nodup_nil⟩

end ArtsPeople
